import Mathlib

/-!
Verification of the multi-agent intersection simulator.

This file gives a shallow embedding, in Lean 4, of the allocation core of
the intersection simulator: the agent (vehicle) data model, the four
selection mechanisms (FCFS, English/Vickrey auction, multi-round
negotiation, chicken game) and the tick-driven allocation engine
(`SimpleIntersection`).  Every definition is translated from the Python
source; machine floats are modelled as rationals, Python's module-global
`random` generator as an explicit stream of rationals threaded through the
functions that draw from it, and Python's stable `sorted` as a stable
insertion sort.  Theorems about the embedding settle the specification
claims.
-/

namespace MAS

/-- Cardinal directions of `constants.py`. -/
inductive Dir where
  | N | S | E | W
deriving DecidableEq, Repr

/-- `CorridorAxis` of `constants.py`. -/
inductive Axis where
  | NS | EW
deriving DecidableEq, Repr

/-- `DIRECTION_AXIS` of `constants.py`. -/
def axisOf : Dir → Axis
  | .N => .NS
  | .S => .NS
  | .E => .EW
  | .W => .EW

/-- `VehicleState` of `constants.py`. -/
inductive VState where
  | inParking | atBarrier | inCorridor | inConflict | negotiating | exited
deriving DecidableEq, Repr

/-- `Mechanism` of `constants.py`.  The source enum has exactly these three
members; there is no `CHICKEN` member even though `mechanisms/__init__.py`
and `app.py` refer to `Mechanism.CHICKEN`. -/
inductive Mechanism where
  | FCFS | AUCTION | NEGOTIATION
deriving DecidableEq, Repr

/-- `VehicleType` of `constants.py`. -/
inductive VehicleType where
  | NORMAL | URGENT
deriving DecidableEq, Repr

/-- `AuctionType` of `mechanisms/auction.py`. -/
inductive AuctionType where
  | english | vickrey
deriving DecidableEq, Repr

/-- `ChickenStrategy` of `mechanisms/chicken_game.py`. -/
inductive ChickenStrategy where
  | aggressive | cooperative | mixed | rational | titForTat
deriving DecidableEq, Repr

/-- `ChickenAction` of `mechanisms/chicken_game.py`. -/
inductive ChickenAction where
  | Yield | Go
deriving DecidableEq, Repr

/-- A grid position (`constants.py` uses 15×15 integer coordinates). -/
abbrev Pos := ℤ × ℤ

/-- `INTERSECTION_POS` of `constants.py`. -/
def INTERSECTION_POS : Pos := (7, 7)

/-- `PARKING_ZONES[..]['start']` of `constants.py`. -/
def parkingStart : Dir → Pos
  | .N => (6, 0)
  | .S => (6, 12)
  | .E => (12, 6)
  | .W => (0, 6)

/-- `BARRIER_POSITIONS` of `constants.py`. -/
def BARRIER_POSITIONS : Dir → Pos
  | .N => (7, 3)
  | .S => (7, 11)
  | .E => (11, 7)
  | .W => (3, 7)

/-- `ENTRY_POINTS` of `constants.py`. -/
def ENTRY_POINTS : Dir → Pos
  | .N => (7, 4)
  | .S => (7, 10)
  | .E => (10, 7)
  | .W => (4, 7)

/-- `EXIT_POINTS` of `constants.py`. -/
def EXIT_POINTS : Dir → Pos
  | .N => (7, 10)
  | .S => (7, 4)
  | .E => (4, 7)
  | .W => (10, 7)

/-- `MOVE_DIRECTION` of `constants.py`. -/
def MOVE_DIRECTION : Dir → Pos
  | .N => (0, 1)
  | .S => (0, -1)
  | .E => (-1, 0)
  | .W => (1, 0)

/-- `WAITING_POSITIONS` of `constants.py` (cell just before the conflict
cell on each approach). -/
def WAITING_POSITIONS : Dir → Pos
  | .N => (7, 6)
  | .S => (7, 8)
  | .E => (8, 7)
  | .W => (6, 7)

/-- `MIN_URGENCY` of `constants.py`. -/
def MIN_URGENCY : ℕ := 1

/-- `MAX_URGENCY` of `constants.py`. -/
def MAX_URGENCY : ℕ := 10

/-- `URGENT_THRESHOLD` of `constants.py`. -/
def URGENT_THRESHOLD : ℕ := 9

/-! ## Python's stable `sorted`

Python's `sorted(xs, key=k)` (and `list.sort`) is a stable sort: elements
are ordered by ascending key and elements with equal keys keep their
original relative order; `reverse=True` orders by descending key, equal
keys again keeping their original order.  We model both with a stable
insertion sort parameterised by a Boolean test `cont y x` meaning "`y`
stays strictly before `x`", so that an element inserted from the left ends
up before every element its key ties with. -/

/-- Insert `x` into `l` after exactly the elements `y` with `cont y x`. -/
def pyIns (cont : α → α → Bool) (x : α) : List α → List α
  | [] => [x]
  | y :: ys => if cont y x then y :: pyIns cont x ys else x :: y :: ys

/-- Stable insertion sort; models Python `sorted` with comparator `cont`. -/
def pySort (cont : α → α → Bool) : List α → List α
  | [] => []
  | x :: xs => pyIns cont x (pySort cont xs)

/-- Ascending stable sort by key `k`: models `sorted(xs, key=k)`. -/
def pySortAsc (k : α → κ) [LinearOrder κ] (l : List α) : List α :=
  pySort (fun y x => decide (k y < k x)) l

/-- Descending stable sort by key `k`: models
`sorted(xs, key=k, reverse=True)`. -/
def pySortDesc (k : α → κ) [LinearOrder κ] (l : List α) : List α :=
  pySort (fun y x => decide (k x < k y)) l

theorem pyIns_perm (cont : α → α → Bool) (x : α) (l : List α) :
    (pyIns cont x l).Perm (x :: l) := by
  induction l with
  | nil => simp [pyIns]
  | cons y ys ih =>
    by_cases h : cont y x = true
    · simp only [pyIns, h, if_true]
      exact (ih.cons y).trans (List.Perm.swap x y ys)
    · simp [pyIns, h]

theorem pySort_perm (cont : α → α → Bool) (l : List α) :
    (pySort cont l).Perm l := by
  induction l with
  | nil => simp [pySort]
  | cons x xs ih =>
    exact (pyIns_perm cont x (pySort cont xs)).trans (ih.cons x)

theorem mem_pyIns (cont : α → α → Bool) (x a : α) (l : List α) :
    a ∈ pyIns cont x l ↔ a = x ∨ a ∈ l := by
  rw [(pyIns_perm cont x l).mem_iff]; simp

theorem mem_pySort (cont : α → α → Bool) (a : α) (l : List α) :
    a ∈ pySort cont l ↔ a ∈ l := (pySort_perm cont l).mem_iff

/-- The leftmost element of `l` attaining the minimal key: the element a
stable ascending sort brings to the front.  Used to characterise the
tie-breaking behaviour of FCFS selection. -/
def leftmostMinBy (k : α → κ) [LinearOrder κ] : List α → Option α
  | [] => none
  | x :: xs =>
    match leftmostMinBy k xs with
    | none => some x
    | some m => if k m < k x then some m else some x

theorem head?_pyIns (cont : α → α → Bool) (x : α) (l : List α) :
    (pyIns cont x l).head? =
      match l.head? with
      | none => some x
      | some y => if cont y x then some y else some x := by
  cases l with
  | nil => simp [pyIns]
  | cons y ys =>
    by_cases h : cont y x = true <;> simp [pyIns, h]

/-- The head of a stable ascending sort is the leftmost minimum. -/
theorem head?_pySortAsc (k : α → κ) [LinearOrder κ] (l : List α) :
    (pySortAsc k l).head? = leftmostMinBy k l := by
  induction l with
  | nil => rfl
  | cons x xs ih =>
    simp only [pySortAsc, pySort, leftmostMinBy] at *
    rw [head?_pyIns, ih]
    cases leftmostMinBy k xs with
    | none => rfl
    | some m => by_cases h : k m < k x <;> simp [h]

theorem leftmostMinBy_isSome (k : α → κ) [LinearOrder κ] {l : List α}
    (h : l ≠ []) : (leftmostMinBy k l).isSome := by
  cases l with
  | nil => exact absurd rfl h
  | cons x xs =>
    simp only [leftmostMinBy]
    cases leftmostMinBy k xs with
    | none => rfl
    | some m => by_cases hlt : k m < k x <;> simp [hlt]

theorem leftmostMinBy_mem (k : α → κ) [LinearOrder κ] {l : List α} {m : α}
    (h : leftmostMinBy k l = some m) : m ∈ l := by
  induction l with
  | nil => simp [leftmostMinBy] at h
  | cons x xs ih =>
    rw [leftmostMinBy] at h
    cases hxs : leftmostMinBy k xs with
    | none =>
      simp only [hxs] at h
      exact (Option.some.inj h) ▸ List.mem_cons_self x xs
    | some m' =>
      simp only [hxs] at h
      by_cases hlt : k m' < k x
      · rw [if_pos hlt] at h
        exact List.mem_cons_of_mem x (ih ((Option.some.inj h) ▸ hxs))
      · rw [if_neg hlt] at h
        exact (Option.some.inj h) ▸ List.mem_cons_self x xs

theorem leftmostMinBy_min (k : α → κ) [LinearOrder κ] {l : List α} :
    ∀ {m : α}, leftmostMinBy k l = some m → ∀ a ∈ l, k m ≤ k a := by
  induction l with
  | nil => intro m h; simp [leftmostMinBy] at h
  | cons x xs ih =>
    intro m h a ha
    rw [leftmostMinBy] at h
    rcases List.mem_cons.mp ha with hax | ha'
    · have hmx : k m ≤ k x := by
        cases hxs : leftmostMinBy k xs with
        | none =>
          simp only [hxs] at h
          exact le_of_eq (congrArg k (Option.some.inj h).symm)
        | some m' =>
          simp only [hxs] at h
          by_cases hlt : k m' < k x
          · rw [if_pos hlt] at h
            exact le_of_lt ((Option.some.inj h) ▸ hlt)
          · rw [if_neg hlt] at h
            exact le_of_eq (congrArg k (Option.some.inj h).symm)
      exact hax ▸ hmx
    · cases hxs : leftmostMinBy k xs with
      | none =>
        exfalso
        have := leftmostMinBy_isSome k (l := xs) (List.ne_nil_of_mem ha')
        rw [hxs] at this
        exact Bool.noConfusion this
      | some m' =>
        simp only [hxs] at h
        by_cases hlt : k m' < k x
        · rw [if_pos hlt] at h
          exact ih ((Option.some.inj h) ▸ hxs) a ha'
        · rw [if_neg hlt] at h
          calc k m = k x := congrArg k (Option.some.inj h).symm
          _ ≤ k m' := le_of_not_lt hlt
          _ ≤ k a := ih hxs a ha'

/-- Sortedness of the descending stable sort: along the output, keys are
non-increasing. -/
theorem pairwise_pySortDesc (k : α → κ) [LinearOrder κ] (l : List α) :
    (pySortDesc k l).Pairwise (fun a b => k b ≤ k a) := by
  induction l with
  | nil => exact List.Pairwise.nil
  | cons x xs ih =>
    simp only [pySortDesc, pySort] at *
    revert ih
    generalize pySort (fun y x => decide (k x < k y)) xs = s
    intro ih
    induction s with
    | nil => simp [pyIns]
    | cons y ys ihs =>
      by_cases h : k x < k y
      · simp only [pyIns, decide_eq_true_eq, if_pos h]
        rcases List.pairwise_cons.mp ih with ⟨hy, hys⟩
        refine List.pairwise_cons.mpr ⟨?_, ihs hys⟩
        intro b hb
        rcases (mem_pyIns _ x b ys).mp hb with rfl | hb'
        · exact le_of_lt h
        · exact hy b hb'
      · simp only [pyIns, decide_eq_true_eq, if_neg h]
        refine List.pairwise_cons.mpr ⟨?_, ih⟩
        intro b hb
        rcases List.mem_cons.mp hb with rfl | hb'
        · exact le_of_not_lt h
        · rcases List.pairwise_cons.mp ih with ⟨hy, _⟩
          exact le_trans (hy b hb') (le_of_not_lt h)

/-! ## Randomness

All randomness in the source flows through the process-global `random`
module (`random.random`, `random.randint`, `random.seed`).  We model the
generator as a stream of rationals in `[0, 1)` together with a cursor;
`random.seed` replaces the stream by a seed-determined one.  The concrete
values of a seeded stream are irrelevant to every theorem below, so the
Mersenne-Twister itself is abstracted by a simple seed-indexed stream. -/

/-- State of the (process-global) random generator: a stream of rationals
and a cursor. -/
structure Rng where
  f : ℕ → ℚ
  idx : ℕ

/-- `random.random()`: one draw from the stream. -/
def pyRandom (g : Rng) : ℚ × Rng := (g.f g.idx, ⟨g.f, g.idx + 1⟩)

/-- `random.randint(a, b)`: one draw, mapped into `[a, b]`. -/
def pyRandint (a b : ℕ) (g : Rng) : ℕ × Rng :=
  let (q, g') := pyRandom g
  (a + min (b - a) (Int.toNat ⌊q * ((b : ℚ) - a + 1)⌋), g')

/-- `random.seed(seed)`: stand-in for the seeded Mersenne-Twister.  The
actual values of the seeded stream never matter to any theorem; only the
fact that it is a function of the seed alone does. -/
def seededRng (seed : ℤ) : Rng :=
  ⟨fun n => (seed.natAbs % (n + 2) : ℕ) / ((n + 2 : ℕ) : ℚ), 0⟩

/-! ## Python `round`

`negotiation.py` rounds scores with `round(x, 1)`.  Python's `round` uses
round-half-to-even.  (On binary floats the half case is about the float's
binary value; over `ℚ` we use exact half-to-even, which agrees except for
float-representation noise that no claim depends on.) -/

/-- Python `round(q)`: nearest integer, halves to even. -/
def pyRoundInt (q : ℚ) : ℤ :=
  let n := ⌊q⌋
  let r := q - n
  if r < 1/2 then n
  else if 1/2 < r then n + 1
  else if Even n then n else n + 1

/-- Python `round(q, 1)`. -/
def pyRound1 (q : ℚ) : ℚ := (pyRoundInt (q * 10) : ℚ) / 10

theorem pyRoundInt_le (q : ℚ) : |((pyRoundInt q : ℚ)) - q| ≤ 1/2 := by
  unfold pyRoundInt
  have h0 : (0 : ℚ) ≤ q - ⌊q⌋ := by
    have := Int.floor_le q; linarith
  have h1 : q - ⌊q⌋ < 1 := by
    have := Int.lt_floor_add_one q; linarith
  by_cases hr : q - ⌊q⌋ < 1/2
  · simp only [hr, if_true]
    rw [abs_le]; constructor <;> linarith
  · by_cases hr2 : 1/2 < q - ⌊q⌋
    · simp only [hr, hr2, if_false, if_true]
      rw [abs_le]; constructor <;> push_cast <;> linarith
    · have he : q - ⌊q⌋ = 1/2 := le_antisymm (le_of_not_lt hr2) (le_of_not_lt hr)
      by_cases hev : Even (⌊q⌋)
      · simp only [hr, hr2, hev, if_false, if_true]
        rw [abs_le]; constructor <;> linarith
      · simp only [hr, hr2, hev, if_false]
        rw [abs_le]; push_cast; constructor <;> linarith

theorem pyRound1_near (q : ℚ) : |pyRound1 q - q| ≤ 1/20 := by
  unfold pyRound1
  have h := pyRoundInt_le (q * 10)
  rw [abs_le] at h ⊢
  constructor <;> [linarith; linarith]

/-! ## The agent (`vehicle.py`)

The `Vehicle` structure carries every field the allocation core reads or
writes.  Presentation-only fields (`parking_pos`, `price_paid`,
negotiation win/loss counters, `is_negotiating`, and the BDI belief and
desire stores) are omitted; of the BDI component, only
`bdi.intentions['strategy']` is ever read by an allocation decision
(`chicken_game_decision`), so it is kept as `bdiStrategy`, initialised
exactly as `BDIComponent.get_negotiation_strategy` computes it. -/

/-- The three values `get_negotiation_strategy` can return. -/
inductive BdiStrategy where
  | aggressive | cooperative | defensive
deriving DecidableEq, Repr

/-- `vehicle.py`, class `Vehicle`. -/
structure Vehicle where
  id : ℕ
  direction : Dir
  mechanism : Mechanism
  pos : Option Pos
  state : VState
  arrivalTime : ℕ
  barrierTime : Option ℕ
  entryTime : Option ℕ
  exitTime : Option ℕ
  urgency : ℕ
  vehicleType : VehicleType
  bidAmount : ℕ
  fuelLevel : ℕ
  distanceRemaining : ℕ
  bdiStrategy : BdiStrategy
deriving DecidableEq, Repr

/-- `BDIComponent.get_negotiation_strategy` (as evaluated at vehicle
construction by `_init_bdi`). -/
def negotiationStrategyOf (urgency fuel : ℕ) : BdiStrategy :=
  if URGENT_THRESHOLD ≤ urgency then .aggressive
  else if fuel < 30 then .aggressive
  else if urgency ≤ 3 then .cooperative
  else .defensive

/-- `Vehicle.__init__` (with `_init_urgency` and `_init_bdi`): draws the
urgency (when random) and then the fuel level from the generator. -/
def mkVehicle (vid : ℕ) (d : Dir) (arrival : ℕ) (urgency? : Option ℕ)
    (isUrgent : Bool) (mech : Mechanism) (g : Rng) : Vehicle × Rng :=
  let (urg, typ, g1) :=
    if mech = .AUCTION ∨ mech = .NEGOTIATION then
      if isUrgent then (MAX_URGENCY, VehicleType.URGENT, g)
      else
        match urgency? with
        | some u =>
          let u' := max MIN_URGENCY (min u MAX_URGENCY)
          (u', if URGENT_THRESHOLD ≤ u' then VehicleType.URGENT
               else VehicleType.NORMAL, g)
        | none =>
          let (u, g') := pyRandint MIN_URGENCY MAX_URGENCY g
          (u, if URGENT_THRESHOLD ≤ u then VehicleType.URGENT
              else VehicleType.NORMAL, g')
    else (0, VehicleType.NORMAL, g)
  let (fuel, g2) := pyRandint 30 100 g1
  ({ id := vid
     direction := d
     mechanism := mech
     pos := none
     state := .inParking
     arrivalTime := arrival
     barrierTime := none
     entryTime := none
     exitTime := none
     urgency := urg
     vehicleType := typ
     bidAmount := 0
     fuelLevel := fuel
     distanceRemaining := 10
     bdiStrategy := negotiationStrategyOf urg fuel }, g2)

/-- `Vehicle.is_urgent`. -/
def Vehicle.isUrgent (v : Vehicle) : Bool :=
  if v.mechanism = .FCFS then false else v.vehicleType = .URGENT

/-- The value returned by `Vehicle.calculate_bid` (a pure function of the
other fields). -/
def calcBid (v : Vehicle) : ℕ :=
  if v.mechanism = .FCFS then 0
  else if v.isUrgent then 1000 + v.urgency
  else v.urgency * 10

/-- The side effect of `Vehicle.calculate_bid`: it caches the computed bid
in `self.bid_amount`. -/
def calcBidUpd (v : Vehicle) : Vehicle := { v with bidAmount := calcBid v }

/-- `Vehicle.move_to_barrier`. -/
def Vehicle.moveToBarrier (v : Vehicle) (t : ℕ) : Vehicle :=
  { v with pos := some (BARRIER_POSITIONS v.direction), state := .atBarrier,
           barrierTime := some t }

/-- `Vehicle.enter_corridor`. -/
def Vehicle.enterCorridor (v : Vehicle) (t : ℕ) : Vehicle :=
  { v with pos := some (ENTRY_POINTS v.direction), state := .inCorridor,
           entryTime := some t, distanceRemaining := 6 }

/-- `Vehicle.get_next_position`. -/
def Vehicle.nextPosition (v : Vehicle) : Option Pos :=
  match v.pos with
  | none => some (ENTRY_POINTS v.direction)
  | some p =>
    let q : Pos := (p.1 + (MOVE_DIRECTION v.direction).1,
                    p.2 + (MOVE_DIRECTION v.direction).2)
    if 0 ≤ q.1 ∧ q.1 < 15 ∧ 0 ≤ q.2 ∧ q.2 < 15 then some q else none

/-- `Vehicle.move`. -/
def Vehicle.move (v : Vehicle) : Vehicle :=
  if v.state = .inCorridor ∨ v.state = .inConflict then
    match v.nextPosition with
    | none => { v with pos := none, state := .exited }
    | some q => { v with pos := some q,
                         distanceRemaining := v.distanceRemaining - 1,
                         fuelLevel := v.fuelLevel - 1 }
  else v

/-- `Vehicle.has_exited`. -/
def Vehicle.hasExited (v : Vehicle) : Bool := v.state = .exited

/-! ## FCFS mechanism (`mechanisms/fcfs.py`) -/

/-- Python's `a or b` for an optional number `a`: `None` and `0` are both
falsy, so `v.barrier_time or v.arrival_time` falls back to the arrival
time when the barrier time is unset *or zero*. -/
def orTruthy (o : Option ℕ) (d : ℕ) : ℕ :=
  match o with
  | some b => if b = 0 then d else b
  | none => d

/-- Sort key of `FCFSMechanism.select`:
`(v.barrier_time or v.arrival_time, v.arrival_time)`.  Note: the source
key has no id component. -/
def fcfsKey (v : Vehicle) : ℕ ×ₗ ℕ :=
  toLex (orTruthy v.barrierTime v.arrivalTime, v.arrivalTime)

/-- `FCFSMechanism.select`: first element of the stable ascending sort by
`fcfsKey`. -/
def fcfsSelect (cs : List Vehicle) : Option Vehicle :=
  if cs.isEmpty then none
  else (pySortAsc fcfsKey cs).head?

/-- Sort key of `FCFSMechanism.select_at_conflict`: `v.entry_time or 0`
(for this key Python's falsy-`or` agrees with replacing `None` by `0`). -/
def fcfsConflictKey (v : Vehicle) : ℕ := v.entryTime.getD 0

/-- `FCFSMechanism.select_at_conflict`. -/
def fcfsSelectAtConflict (ws : List Vehicle) : Option Vehicle :=
  if ws.isEmpty then none
  else if ws.length = 1 then ws.head?
  else (pySortAsc fcfsConflictKey ws).head?

/-! ## Auction mechanism (`mechanisms/auction.py`) -/

/-- The fields of `AuctionResult` the claims are about (the per-round
trace is reporting-only and omitted). -/
structure AuctionOutcome where
  winnerId : ℕ
  winningBid : ℕ
  pricePaid : ℕ
  totalRounds : ℕ
deriving DecidableEq, Repr

/-- Dict lookup in `all_bids` (insertion-ordered association list; the
engine never produces duplicate ids). -/
def lookupBid (allBids : List (ℕ × ℕ)) (i : ℕ) : ℕ :=
  match allBids.find? (fun p => p.1 == i) with
  | some p => p.2
  | none => 0

/-- `all_bids = {v.id: v.calculate_bid() for v in candidates}` as an
insertion-ordered association list. -/
def allBidsOf (cs : List Vehicle) : List (ℕ × ℕ) :=
  cs.map (fun v => (v.id, calcBid v))

/-- Leftmost element attaining the maximal key — Python's
`max(xs, key=k)` returns the first maximal element in iteration order. -/
def leftmostMaxBy (k : α → ℕ) (l : List α) : Option α :=
  leftmostMinBy (fun a => -(k a : ℤ)) l

theorem leftmostMaxBy_mem (k : α → ℕ) {l : List α} {m : α}
    (h : leftmostMaxBy k l = some m) : m ∈ l :=
  leftmostMinBy_mem _ h

theorem leftmostMaxBy_max (k : α → ℕ) {l : List α} {m : α}
    (h : leftmostMaxBy k l = some m) : ∀ a ∈ l, k a ≤ k m := by
  intro a ha
  have hle := leftmostMinBy_min (fun a => -(k a : ℤ)) h a ha
  simp only [neg_le_neg_iff, Nat.cast_le] at hle
  exact hle

/-- The `while` loop of `_run_english_auction`.  `fuel` is the number of
rounds still allowed before the 100-round safety cap; each iteration
raises the price by the increment 10 and keeps exactly the bidders whose
private bid still meets it.  Returns the remaining active bidders, the
final price and the number of rounds played. -/
def englishGo (bids : ℕ → ℕ) : ℕ → List ℕ → ℕ → ℕ → List ℕ × ℕ × ℕ
  | 0, active, price, round => (active, price, round)
  | fuel + 1, active, price, round =>
    if active.length ≤ 1 then (active, price, round)
    else
      let p := price + 10
      let act := active.filter (fun i => decide (p ≤ bids i))
      englishGo bids fuel act p (round + 1)

/-- Winner determination at the end of
`AuctionMechanism._run_english_auction`: the last remaining active bidder,
or — when the loop eliminated everyone simultaneously — the
`max(all_bids, key=all_bids.get)` fallback, the first id with the maximal
original bid. -/
def englishWinnerId (cs : List Vehicle) (active : List ℕ) : ℕ :=
  match active with
  | i :: _ => i
  | [] =>
    match leftmostMaxBy (fun p : ℕ × ℕ => p.2) (allBidsOf cs) with
    | some p => p.1
    | none => 0

def runEnglish (cs : List Vehicle) : AuctionOutcome :=
  let go := englishGo (lookupBid (allBidsOf cs)) 100
    ((allBidsOf cs).map (·.1)) 0 0
  { winnerId := englishWinnerId cs go.1
    winningBid := lookupBid (allBidsOf cs) (englishWinnerId cs go.1)
    pricePaid := go.2.1
    totalRounds := go.2.2 }

/-- `AuctionMechanism._run_vickrey_auction`: sort the sealed bids
descending (stable); the head wins and pays the second entry's bid, `0`
if it is alone. -/
def runVickrey (cs : List Vehicle) : AuctionOutcome :=
  match pySortDesc (fun p : ℕ × ℕ => p.2) (allBidsOf cs) with
  | (wid, wbid) :: rest =>
    { winnerId := wid
      winningBid := wbid
      pricePaid := match rest with | (_, b) :: _ => b | [] => 0
      totalRounds := 1 }
  | [] => { winnerId := 0, winningBid := 0, pricePaid := 0, totalRounds := 0 }

/-- `AuctionMechanism.select`.  Besides the winner it returns the
candidate list as it stands after the call: collecting the sealed bids
calls `calculate_bid` on every candidate, which caches the bid in each
vehicle's `bid_amount` field (the single-candidate branch recomputes the
lone candidate's bid for the details record). -/
def auctionSelect (t : AuctionType) (cs : List Vehicle) :
    Option (Vehicle × AuctionOutcome) × List Vehicle :=
  match cs with
  | [] => (none, [])
  | [v] =>
    let v' := calcBidUpd v
    (some (v', ⟨v.id, calcBid v, 0, 1⟩), [v'])
  | _ =>
    let cs' := cs.map calcBidUpd
    let outcome := if t = .english then runEnglish cs else runVickrey cs
    ((cs'.find? (fun v => v.id == outcome.winnerId)).map (fun w => (w, outcome)),
     cs')

/-! ## Negotiation mechanism (`mechanisms/negotiation.py`) -/

/-- The fields of `NegotiationResult` (plus the two proposed scores, the
two final scores and the close-negotiation counter increment) that the
claims are about; the message trace is reporting-only and omitted. -/
structure NegResult where
  winnerId : ℕ
  loserId : ℕ
  score1 : ℚ
  score2 : ℚ
  finalScore1 : ℚ
  finalScore2 : ℚ
  winnerScore : ℚ
  loserScore : ℚ
  closeDelta : ℕ
  totalRounds : ℕ
  totalMessages : ℕ
deriving DecidableEq, Repr

/-- `NegotiationMechanism._calculate_priority_score` with the
`random.random()` draw `r` made explicit:
`40%·urgency + 35%·min(wait/50, 1) + 15%·(1 − fuel/100) + 10%·r`,
rounded to one decimal. -/
def priorityScore (v : Vehicle) (t : ℕ) (r : ℚ) : ℚ :=
  let urgencyScore := (v.urgency : ℚ) / 10 * 40
  let waitTime : ℤ := (t : ℤ) - v.arrivalTime
  let waitScore := min ((waitTime : ℚ) / 50) 1 * 35
  let fuelScore := (1 - (v.fuelLevel : ℚ) / 100) * 15
  let randomScore := r * 10
  pyRound1 (urgencyScore + waitScore + fuelScore + randomScore)

/-- The two PROPOSE-round scores of `_run_negotiation` (one
`random.random()` draw inside each `_calculate_priority_score` call),
with the generator as left behind. -/
def negScores (v1 v2 : Vehicle) (t : ℕ) (g : Rng) : ℚ × ℚ × Rng :=
  let (r1, g1) := pyRandom g
  let s1 := priorityScore v1 t r1
  let (r2, g2) := pyRandom g1
  let s2 := priorityScore v2 t r2
  (s1, s2, g2)

/-- The COUNTER-round trigger of `_run_negotiation`:
`abs(score1 - score2) / max(score1, score2, 1) * 100 < 10` (note the
literal `1` inside the source `max`). -/
def negClose (s1 s2 : ℚ) : Bool :=
  decide (|s1 - s2| / max (max s1 s2) 1 * 100 < 10)

/-- The COUNTER-round fairness bonus of `_run_negotiation`:
`score + wait_time * 0.3` with `wait_time = current_step - arrival_time`.
-/
def negAdjust (v : Vehicle) (t : ℕ) (s : ℚ) : ℚ :=
  s + (((t : ℤ) - v.arrivalTime : ℤ) : ℚ) * (3/10)

/-- The decision part of `_run_negotiation` given the two PROPOSE scores:
the COUNTER round runs iff `negClose`, in which case both scores gain the
fairness bonus and the decision uses the adjusted scores;
`score1 >= score2` makes party 1 the winner. -/
def negResultOf (v1 v2 : Vehicle) (s1 s2 : ℚ) (t : ℕ) : NegResult :=
  let close := negClose s1 s2
  let f1 := if close then negAdjust v1 t s1 else s1
  let f2 := if close then negAdjust v2 t s2 else s2
  if f2 ≤ f1 then
    { winnerId := v1.id, loserId := v2.id
      score1 := s1, score2 := s2, finalScore1 := f1, finalScore2 := f2
      winnerScore := f1, loserScore := f2
      closeDelta := if close then 1 else 0
      totalRounds := if close then 4 else 3
      totalMessages := if close then 8 else 6 }
  else
    { winnerId := v2.id, loserId := v1.id
      score1 := s1, score2 := s2, finalScore1 := f1, finalScore2 := f2
      winnerScore := f2, loserScore := f1
      closeDelta := if close then 1 else 0
      totalRounds := if close then 4 else 3
      totalMessages := if close then 8 else 6 }

/-- `NegotiationMechanism._run_negotiation`: draw the two scores, then
decide as in `negResultOf`. -/
def runNegotiation (v1 v2 : Vehicle) (t : ℕ) (g : Rng) : NegResult × Rng :=
  let (s1, s2, g2) := negScores v1 v2 t g
  (negResultOf v1 v2 s1 s2 t, g2)

/-- `NegotiationMechanism.select`: with two or more candidates it sorts
them by `calculate_bid()` descending — caching the recomputed bid in every
candidate's `bid_amount` on the way — and negotiates between the top two.
Returns the winner, the candidate list after the call, and the generator.
-/
def negotiationSelect (cs : List Vehicle) (t : ℕ) (g : Rng) :
    Option Vehicle × List Vehicle × Rng :=
  match cs with
  | [] => (none, [], g)
  | [v] => (some v, [v], g)
  | _ =>
    let cs' := cs.map calcBidUpd
    let wg :=
      match pySortDesc calcBid cs' with
      | v1 :: v2 :: _ =>
        let (res, g') := runNegotiation v1 v2 t g
        (some (if res.winnerId = v1.id then v1 else v2), g')
      | _ => (none, g)
    (wg.1, cs', wg.2)

/-- `NegotiationMechanism.select_at_conflict`: negotiates between the
first two waiting vehicles, without sorting and without touching any
vehicle field. -/
def negotiationSelectAtConflict (ws : List Vehicle) (t : ℕ) (g : Rng) :
    Option Vehicle × List Vehicle × Rng :=
  match ws with
  | [] => (none, [], g)
  | [v] => (some v, [v], g)
  | v1 :: v2 :: rest =>
    let (res, g') := runNegotiation v1 v2 t g
    (some (if res.winnerId = v1.id then v1 else v2), v1 :: v2 :: rest, g')

/-! ## Chicken-game mechanism (`mechanisms/chicken_game.py`) -/

/-- `PAYOFF_MATRIX`. -/
def payoffMatrix : ChickenAction → ChickenAction → ℤ × ℤ
  | .Yield, .Yield => (1, 1)
  | .Yield, .Go => (0, 3)
  | .Go, .Yield => (3, 0)
  | .Go, .Go => (-10, -10)

/-- `Vehicle.chicken_game_decision`: expected-utility comparison with an
urgency bonus of `0.5` per urgency point on Go and a strategy modifier of
`+2` on Go (aggressive) or on Yield (cooperative). -/
def chickenDecision (v : Vehicle) (otherUrgency : ℕ) : ChickenAction :=
  let pOtherGo : ℚ := (otherUrgency : ℚ) / 10
  let euYield : ℚ := 1 * (1 - pOtherGo) + 0 * pOtherGo
  let euGo : ℚ := 3 * (1 - pOtherGo) + (-10) * pOtherGo + (v.urgency : ℚ) * (1/2)
  let euGo' := if v.bdiStrategy = .aggressive then euGo + 2 else euGo
  let euYield' := if v.bdiStrategy = .cooperative then euYield + 2 else euYield
  if euYield' < euGo' then .Go else .Yield

/-- `ChickenGameMechanism._get_action`: `hasattr(vehicle,
'chicken_game_decision')` is true for every `Vehicle`, so the mechanism
always delegates to the vehicle's own decision; the `_apply_strategy`
fallback is unreachable for vehicles of this repository. -/
def chickenGetAction (v : Vehicle) (otherUrgency : ℕ) : ChickenAction :=
  chickenDecision v otherUrgency

/-- `ChickenGameOutcome`. -/
structure ChickenOutcome where
  playerAId : ℕ
  playerBId : ℕ
  actionA : ChickenAction
  actionB : ChickenAction
  payoffA : ℤ
  payoffB : ℤ
  winnerId : Option ℕ
  isCollision : Bool
  isDeadlock : Bool
deriving DecidableEq, Repr

/-- The outcome-resolution part of
`ChickenGameMechanism._play_chicken_game` (everything after the two
actions have been drawn): payoff lookup, collision/deadlock detection, and
the double-Go override that forces one player to Yield post hoc with a
symmetric `(-5, -5)` near-miss payoff. -/
def resolveChicken (v1 v2 : Vehicle) (a1 a2 : ChickenAction) : ChickenOutcome :=
  let pay := payoffMatrix a1 a2
  let isCollision : Bool := a1 = .Go ∧ a2 = .Go
  let isDeadlock : Bool := a1 = .Yield ∧ a2 = .Yield
  if a1 = .Go ∧ a2 = .Yield then
    { playerAId := v1.id, playerBId := v2.id, actionA := a1, actionB := a2
      payoffA := pay.1, payoffB := pay.2, winnerId := some v1.id
      isCollision := isCollision, isDeadlock := isDeadlock }
  else if a1 = .Yield ∧ a2 = .Go then
    { playerAId := v1.id, playerBId := v2.id, actionA := a1, actionB := a2
      payoffA := pay.1, payoffB := pay.2, winnerId := some v2.id
      isCollision := isCollision, isDeadlock := isDeadlock }
  else if isCollision then
    if v2.urgency ≤ v1.urgency then
      { playerAId := v1.id, playerBId := v2.id
        actionA := a1, actionB := .Yield
        payoffA := -5, payoffB := -5, winnerId := some v1.id
        isCollision := isCollision, isDeadlock := isDeadlock }
    else
      { playerAId := v1.id, playerBId := v2.id
        actionA := .Yield, actionB := a2
        payoffA := -5, payoffB := -5, winnerId := some v2.id
        isCollision := isCollision, isDeadlock := isDeadlock }
  else
    { playerAId := v1.id, playerBId := v2.id, actionA := a1, actionB := a2
      payoffA := pay.1, payoffB := pay.2, winnerId := none
      isCollision := isCollision, isDeadlock := isDeadlock }

/-- `ChickenGameMechanism._play_chicken_game`. -/
def playChickenGame (v1 v2 : Vehicle) : ChickenOutcome :=
  resolveChicken v1 v2 (chickenGetAction v1 v2.urgency)
    (chickenGetAction v2 v1.urgency)

/-- The statistics increments of `ChickenGameMechanism._update_stats`.
The `collisions` counter is never incremented anywhere in the source: a
double-Go game is counted as a near miss. -/
structure ChickenStatsDelta where
  collisions : ℕ
  nearMisses : ℕ
  deadlocks : ℕ
  cleanPasses : ℕ
deriving DecidableEq, Repr

/-- `ChickenGameMechanism._update_stats` (the outcome-classification
part). -/
def chickenUpdateStats (o : ChickenOutcome) : ChickenStatsDelta :=
  if o.isCollision then
    { collisions := 0, nearMisses := 1, deadlocks := 0, cleanPasses := 0 }
  else if o.isDeadlock then
    { collisions := 0, nearMisses := 0, deadlocks := 1, cleanPasses := 0 }
  else
    { collisions := 0, nearMisses := 0, deadlocks := 0, cleanPasses := 1 }

/-! ## The mechanism factory (`mechanisms/__init__.py`) -/

/-- Tags for the four mechanism implementations the package defines. -/
inductive MechanismImpl where
  | fcfsImpl
  | auctionImpl (t : AuctionType)
  | negotiationImpl
  | chickenImpl (s : ChickenStrategy)
deriving DecidableEq, Repr

/-- `create_mechanism`.  It dispatches on `constants.Mechanism`, which has
only the three members `FCFS`, `AUCTION` and `NEGOTIATION`; the source's
final `elif mechanism_type == Mechanism.CHICKEN` compares against an enum
attribute that does not exist, so no enum value can select the chicken
implementation (a call reaching that line dies with `AttributeError`, as
would the factory docstring's own example
`create_mechanism(Mechanism.CHICKEN)`). -/
def createMechanism (m : Mechanism) (auctionType : AuctionType)
    (_chickenStrategy : ChickenStrategy) : MechanismImpl :=
  match m with
  | .FCFS => .fcfsImpl
  | .AUCTION => .auctionImpl auctionType
  | .NEGOTIATION => .negotiationImpl

/-- Whether a factory result is the chicken-game implementation. -/
def MechanismImpl.isChicken : MechanismImpl → Bool
  | .chickenImpl _ => true
  | _ => false

/-! ## The allocation engine (`intersection.py`)

`SimpleIntersection` delegates every contested decision to its mechanism
through `select`/`select_at_conflict`.  The engine is embedded relative to
a `Policy`: the mechanism kind (used by the engine's own parking sort) and
the two selection functions, together with the contract — relied on by
`process_barrier`'s `deque.remove(winner)` — that a returned winner is one
of the candidates.  All four mechanisms of the repository satisfy it.
Selection may consume randomness (negotiation and mixed chicken
strategies do), so the generator is threaded through.  The bid-caching
side effect of `calculate_bid` on queued vehicles (see `calcBidUpd`) is
not routed back into the queues here: no engine path reads `bid_amount`,
every consumer recomputes the bid. -/

/-- A selection mechanism as the engine sees it. -/
structure Policy where
  mech : Mechanism
  selectB : List Vehicle → ℕ → Rng → Option Vehicle × Rng
  selectC : List Vehicle → ℕ → Rng → Option Vehicle × Rng
  selectB_mem : ∀ cs t g v, (selectB cs t g).1 = some v → v ∈ cs
  selectC_mem : ∀ ws t g v, (selectC ws t g).1 = some v → v ∈ ws

/-- Engine construction parameters after `__init__` normalisation
(`urgent_probability` is forced to `0` under FCFS). -/
structure Config where
  spawnRate : ℚ
  urgentProbability : ℚ

/-- `__init__`'s normalisation of the urgent probability. -/
def effectiveConfig (m : Mechanism) (spawnRate urgentProbability : ℚ) : Config :=
  ⟨spawnRate, if m = .FCFS then 0 else urgentProbability⟩

/-- The mutable state of `SimpleIntersection`. -/
structure EngineState where
  stepCount : ℕ
  vehicleCounter : ℕ
  parkingZones : Dir → List Vehicle
  barrierQueues : Dir → List Vehicle
  corridorReserved : Axis → Option ℕ
  corridorVehicles : List Vehicle
  conflictZoneVehicle : Option ℕ
  exitedVehicles : List Vehicle
  totalSpawned : ℕ
  totalCrossed : ℕ
  urgentCrossed : ℕ
  totalWaitTime : ℤ
  collisionsAvoided : ℕ

/-- The freshly constructed engine state. -/
def initState : EngineState where
  stepCount := 0
  vehicleCounter := 0
  parkingZones := fun _ => []
  barrierQueues := fun _ => []
  corridorReserved := fun _ => none
  corridorVehicles := []
  conflictZoneVehicle := none
  exitedVehicles := []
  totalSpawned := 0
  totalCrossed := 0
  urgentCrossed := 0
  totalWaitTime := 0
  collisionsAvoided := 0

/-- `if seed:` — Python truthiness of the optional seed: `None` and `0`
are falsy, so neither seeds the generator. -/
def seedTruthy : Option ℤ → Bool
  | none => false
  | some sd => decide (sd ≠ 0)

/-- `SimpleIntersection.__init__`: builds the empty state and — only for a
truthy seed — re-seeds the process-global generator. -/
def engineNew (seed : Option ℤ) (g : Rng) : EngineState × Rng :=
  (initState,
   match seed with
   | some sd => if sd ≠ 0 then seededRng sd else g
   | none => g)

/-- The four directions in the iteration order of the source. -/
def allDirs : List Dir := [.N, .S, .E, .W]

/-- Parking-slot coordinates computed by `spawn_vehicle`. -/
def parkingSlotPos (d : Dir) (idx : ℕ) : Pos :=
  let st := parkingStart d
  if d = .N ∨ d = .S then (st.1 + (idx % 3 : ℕ), st.2 + (idx / 3 : ℕ))
  else (st.1 + (idx / 3 : ℕ), st.2 + (idx % 3 : ℕ))

/-- `SimpleIntersection.spawn_vehicle`.  Under a non-FCFS mechanism one
draw decides urgency; `Vehicle.__init__` then draws as described at
`mkVehicle`. -/
def spawnVehicle (pol : Policy) (cfg : Config) (d : Dir) (s : EngineState)
    (g : Rng) : EngineState × Rng :=
  let counter := s.vehicleCounter + 1
  let (isUrgent, g1) :=
    if pol.mech ≠ .FCFS then
      let (q, g') := pyRandom g
      (decide (q < cfg.urgentProbability), g')
    else (false, g)
  let (v, g2) := mkVehicle counter d s.stepCount none isUrgent pol.mech g1
  let idx := (s.parkingZones d).length
  let v' := { v with pos := some (parkingSlotPos d idx) }
  ({ s with
      vehicleCounter := counter
      parkingZones := fun d' => if d' = d then s.parkingZones d ++ [v']
                                else s.parkingZones d'
      totalSpawned := s.totalSpawned + 1 }, g2)

/-- `SimpleIntersection.try_spawn_vehicles`: one spawn draw per direction;
a full parking pool (9) suppresses the spawn silently. -/
def trySpawnVehicles (pol : Policy) (cfg : Config) (s : EngineState)
    (g : Rng) : EngineState × Rng :=
  allDirs.foldl
    (fun sg d =>
      let (q, g') := pyRandom sg.2
      if q < cfg.spawnRate then
        if (sg.1.parkingZones d).length < 9 then spawnVehicle pol cfg d sg.1 g'
        else (sg.1, g')
      else (sg.1, g'))
    (s, g)

/-- `SimpleIntersection.move_parking_to_barrier`: per direction, when the
barrier queue (cap 3) has room, sort the parking pool — by arrival time
under FCFS, else by `calculate_bid()` descending (caching each bid) — and
move the head to the barrier. -/
def moveParkingToBarrier (pol : Policy) (s : EngineState) : EngineState :=
  allDirs.foldl
    (fun s d =>
      let parking := s.parkingZones d
      let barrier := s.barrierQueues d
      if parking.isEmpty ∨ 3 ≤ barrier.length then s
      else
        let sortedParking :=
          if pol.mech = .FCFS then pySortAsc Vehicle.arrivalTime parking
          else pySortDesc calcBid (parking.map calcBidUpd)
        match sortedParking with
        | [] => s
        | v :: rest =>
          let v' := v.moveToBarrier s.stepCount
          { s with
              parkingZones := fun d' => if d' = d then rest else s.parkingZones d'
              barrierQueues := fun d' => if d' = d then barrier ++ [v']
                                         else s.barrierQueues d' })
    s

/-- The two directions feeding an axis, in source order. -/
def axisDirs : Axis → List Dir
  | .NS => [.N, .S]
  | .EW => [.E, .W]

/-- `SimpleIntersection.process_barrier`: when the axis corridor is free
and candidates exist, ask the policy; the winner leaves its barrier queue,
reserves the axis, enters the corridor and has its wait time recorded. -/
def processBarrier (pol : Policy) (axis : Axis) (s : EngineState) (g : Rng) :
    EngineState × Rng :=
  if (s.corridorReserved axis).isSome then (s, g)
  else
    let candidates := ((axisDirs axis).map s.barrierQueues).flatten
    if candidates.isEmpty then (s, g)
    else
      let (w?, g') := pol.selectB candidates s.stepCount g
      match w? with
      | none => (s, g')
      | some w =>
        let w' := w.enterCorridor s.stepCount
        ({ s with
            barrierQueues := fun d' =>
              if d' = w.direction then
                (s.barrierQueues d').eraseP (fun u => u.id == w.id)
              else s.barrierQueues d'
            corridorReserved := fun a => if a = axis then some w.id
                                         else s.corridorReserved a
            corridorVehicles := s.corridorVehicles ++ [w']
            totalWaitTime := s.totalWaitTime +
              ((s.stepCount : ℤ) - w.arrivalTime) }, g')

/-- Write an updated vehicle back over the dict entry with its id. -/
def replaceById (l : List Vehicle) (v : Vehicle) : List Vehicle :=
  l.map (fun u => if u.id = v.id then v else u)

/-- `SimpleIntersection._move_vehicle_safely`: advance the vehicle; when
it leaves the grid, stamp the exit time, free its corridor lock (and the
conflict lock if it still holds it), append it to the exited record and
bump the crossing statistics.  Returns the state, the updated exit-id
accumulator and the vehicle as mutated. -/
def moveVehicleSafely (s : EngineState) (exitedIds : List ℕ) (v : Vehicle) :
    EngineState × List ℕ × Vehicle :=
  let v1 := v.move
  if v1.hasExited then
    let v2 := { v1 with exitTime := some s.stepCount }
    let s1 := { s with
        corridorReserved := fun a => if a = axisOf v.direction then none
                                     else s.corridorReserved a }
    let s2 := if s1.conflictZoneVehicle = some v.id then
                { s1 with conflictZoneVehicle := none }
              else s1
    let s3 := { s2 with
        exitedVehicles := s2.exitedVehicles ++ [v2]
        totalCrossed := s2.totalCrossed + 1
        urgentCrossed := if v2.isUrgent then s2.urgentCrossed + 1
                         else s2.urgentCrossed
        corridorVehicles := replaceById s2.corridorVehicles v2 }
    (s3, exitedIds ++ [v.id], v2)
  else
    ({ s with corridorVehicles := replaceById s.corridorVehicles v1 },
     exitedIds, v1)

/-- One iteration of the movement loop of
`SimpleIntersection.move_corridor_vehicles`, for the snapshot id `vid`:
vehicles at their own waiting cell either cross (already in conflict),
enter the conflict cell (this tick's winner, when the cell is free), or
wait (counted as a collision avoidance); the vehicle at the conflict cell
moves out and releases the cell; everyone else just advances. -/
def processCorridorVehicle (winnerId? : Option ℕ)
    (acc : EngineState × List ℕ) (vid : ℕ) : EngineState × List ℕ :=
  let (s, exitedIds) := acc
  match s.corridorVehicles.find? (fun u => u.id == vid) with
  | none => (s, exitedIds)
  | some v =>
    if v.pos = some (WAITING_POSITIONS v.direction) then
      if v.state = .inConflict then
        let (s', e', _) := moveVehicleSafely s exitedIds v
        (s', e')
      else if s.conflictZoneVehicle.isSome then
        ({ s with collisionsAvoided := s.collisionsAvoided + 1 }, exitedIds)
      else if winnerId? = some v.id then
        let v1 := { v with state := .inConflict }
        let s1 := { s with
            conflictZoneVehicle := some v.id
            corridorVehicles := replaceById s.corridorVehicles v1 }
        let (s', e', _) := moveVehicleSafely s1 exitedIds v1
        (s', e')
      else
        ({ s with collisionsAvoided := s.collisionsAvoided + 1 }, exitedIds)
    else if v.pos = some INTERSECTION_POS then
      let (s1, e1, v1) := moveVehicleSafely s exitedIds v
      let v2 := { v1 with state := .inCorridor }
      ({ s1 with
          conflictZoneVehicle := none
          corridorVehicles := replaceById s1.corridorVehicles v2 }, e1)
    else
      let (s', e', _) := moveVehicleSafely s exitedIds v
      (s', e')

/-- `SimpleIntersection.move_corridor_vehicles`: pick this tick's conflict
winner (policy decision only when the cell is free and two or more
vehicles wait), run the movement loop over a snapshot of the corridor
dict, then delete the vehicles that exited. -/
def moveCorridorVehicles (pol : Policy) (s : EngineState) (g : Rng) :
    EngineState × Rng :=
  let waiting := s.corridorVehicles.filter
    (fun v => decide (v.pos = some (WAITING_POSITIONS v.direction) ∧
                      v.state ≠ .inConflict))
  let (winnerId?, g') :=
    if s.conflictZoneVehicle = none then
      if 2 ≤ waiting.length then
        let (w?, g') := pol.selectC waiting s.stepCount g
        (w?.map (·.id), g')
      else
        match waiting with
        | [w] => (some w.id, g)
        | _ => (none, g)
    else (none, g)
  let snapshot := s.corridorVehicles.map (·.id)
  let (s1, exitedIds) :=
    snapshot.foldl (processCorridorVehicle winnerId?) (s, [])
  ({ s1 with corridorVehicles :=
      s1.corridorVehicles.filter (fun v => decide (v.id ∉ exitedIds)) }, g')

/-- `SimpleIntersection.step`: the fixed per-tick phase order. -/
def engineStep (pol : Policy) (cfg : Config) (sg : EngineState × Rng) :
    EngineState × Rng :=
  let s0 := { sg.1 with stepCount := sg.1.stepCount + 1 }
  let (s1, g1) := trySpawnVehicles pol cfg s0 sg.2
  let s2 := moveParkingToBarrier pol s1
  let (s3, g3) := processBarrier pol .NS s2 g1
  let (s4, g4) := processBarrier pol .EW s3 g3
  moveCorridorVehicles pol s4 g4

/-- `n` consecutive calls of `step()`. -/
def engineRun (pol : Policy) (cfg : Config) (sg : EngineState × Rng) :
    ℕ → EngineState × Rng
  | 0 => sg
  | n + 1 => engineRun pol cfg (engineStep pol cfg sg) n

/-- The aggregate part of `SimpleIntersection.get_stats`. -/
structure Stats where
  step : ℕ
  totalSpawned : ℕ
  totalCrossed : ℕ
  urgentCrossed : ℕ
  parkingCount : ℕ
  barrierCount : ℕ
  corridorCount : ℕ
  waitingAtIntersection : ℕ
  avgWaitTime : ℚ
  nsReserved : Bool
  ewReserved : Bool
  conflictOccupied : Bool
  collisionsAvoided : ℕ
deriving DecidableEq, Repr

/-- Python truthiness of a stored optional agent id (`'RESERVED' if
self.corridor_reserved[..] else 'FREE'`); ids are always ≥ 1, so this is
`isSome` on every reachable state. -/
def truthyId : Option ℕ → Bool
  | none => false
  | some i => decide (i ≠ 0)

/-- `SimpleIntersection.get_stats`. -/
def getStats (s : EngineState) : Stats where
  step := s.stepCount
  totalSpawned := s.totalSpawned
  totalCrossed := s.totalCrossed
  urgentCrossed := s.urgentCrossed
  parkingCount := (allDirs.map (fun d => (s.parkingZones d).length)).sum
  barrierCount := (allDirs.map (fun d => (s.barrierQueues d).length)).sum
  corridorCount := s.corridorVehicles.length
  waitingAtIntersection :=
    (s.corridorVehicles.filter
      (fun v => allDirs.any (fun d => v.pos == some (WAITING_POSITIONS d)))).length
  avgWaitTime := if 0 < s.totalCrossed then
                   (s.totalWaitTime : ℚ) / s.totalCrossed
                 else 0
  nsReserved := truthyId (s.corridorReserved .NS)
  ewReserved := truthyId (s.corridorReserved .EW)
  conflictOccupied := truthyId s.conflictZoneVehicle
  collisionsAvoided := s.collisionsAvoided

/-- The sum, over the exited-vehicle record, of the per-vehicle wait time
`entry_time − arrival_time` — the quantity the round-trip statistic claim
compares `avg_wait_time` against. -/
def exitedWaitSum (s : EngineState) : ℤ :=
  (s.exitedVehicles.map
    (fun v => ((v.entryTime.getD 0 : ℕ) : ℤ) - v.arrivalTime)).sum

theorem head?_mem {l : List α} {a : α} (h : l.head? = some a) : a ∈ l := by
  cases l with
  | nil => cases h
  | cons x xs => exact (Option.some.inj h) ▸ List.mem_cons_self x xs

theorem fcfsSelect_mem {cs : List Vehicle} {v : Vehicle}
    (h : fcfsSelect cs = some v) : v ∈ cs := by
  unfold fcfsSelect at h
  by_cases hcs : cs.isEmpty
  · rw [if_pos hcs] at h; cases h
  · rw [if_neg hcs] at h
    exact (mem_pySort _ v cs).mp (head?_mem h)

theorem fcfsSelectAtConflict_mem {ws : List Vehicle} {v : Vehicle}
    (h : fcfsSelectAtConflict ws = some v) : v ∈ ws := by
  unfold fcfsSelectAtConflict at h
  by_cases hws : ws.isEmpty
  · rw [if_pos hws] at h; cases h
  · rw [if_neg hws] at h
    by_cases hlen : ws.length = 1
    · rw [if_pos hlen] at h
      exact head?_mem h
    · rw [if_neg hlen] at h
      exact (mem_pySort _ v ws).mp (head?_mem h)

/-- The FCFS mechanism packaged for the engine. -/
def fcfsPolicy : Policy where
  mech := .FCFS
  selectB := fun cs _ g => (fcfsSelect cs, g)
  selectC := fun ws _ g => (fcfsSelectAtConflict ws, g)
  selectB_mem := fun _ _ _ _ h => fcfsSelect_mem h
  selectC_mem := fun _ _ _ _ h => fcfsSelectAtConflict_mem h

/-! ## Concrete vehicles used in witnesses and counterexamples -/

/-- A vehicle at the barrier with the given identity, timing and urgency —
the shape in which candidates reach `select`. -/
def demoVehicle (i : ℕ) (d : Dir) (mech : Mechanism) (arr : ℕ)
    (bt et : Option ℕ) (u fuel : ℕ) : Vehicle :=
  { id := i, direction := d, mechanism := mech, pos := none,
    state := .atBarrier, arrivalTime := arr, barrierTime := bt,
    entryTime := et, exitTime := none, urgency := u,
    vehicleType := if URGENT_THRESHOLD ≤ u then .URGENT else .NORMAL,
    bidAmount := 0, fuelLevel := fuel, distanceRemaining := 10,
    bdiStrategy := negotiationStrategyOf u fuel }

/-! ## C2 — the four policy kinds at construction -/

/-- C2: `create_mechanism` can build the FCFS, auction and negotiation
implementations, but no value of `constants.Mechanism` selects the
chicken-game implementation: the enum that the factory dispatches on has
no fourth member, so an engine with the ChickenGame policy cannot be
constructed (the code path that would do it dereferences the nonexistent
`Mechanism.CHICKEN` and dies with `AttributeError`, contradicting the
factory docstring's own example). -/
theorem createMechanism_kinds :
    ∀ (m : Mechanism) (a : AuctionType) (c : ChickenStrategy),
      (createMechanism m a c).isChicken = false ∧
      createMechanism .FCFS a c = .fcfsImpl ∧
      createMechanism .AUCTION a c = .auctionImpl a ∧
      createMechanism .NEGOTIATION a c = .negotiationImpl := by
  intro m a c
  refine ⟨?_, rfl, rfl, rfl⟩
  cases m <;> rfl

/-! ## C3 — the double-Go override of the chicken game -/

/-- C3 (amended): on a double Go the override charges both players the
symmetric near-miss payoff `(-5, -5)`, forces exactly one player — the
*lower*-urgency one (player B on ties) — to Yield post hoc, hands the win
to the higher-urgency player, and the statistics record a near miss and
never a collision; for unequal urgencies the tiebreak is the deterministic
urgency comparison. -/
theorem chicken_go_go_override (v1 v2 : Vehicle) :
    (resolveChicken v1 v2 .Go .Go).payoffA = -5 ∧
    (resolveChicken v1 v2 .Go .Go).payoffB = -5 ∧
    ((resolveChicken v1 v2 .Go .Go).actionA,
     (resolveChicken v1 v2 .Go .Go).actionB) =
      (if v2.urgency ≤ v1.urgency then (ChickenAction.Go, ChickenAction.Yield)
       else (ChickenAction.Yield, ChickenAction.Go)) ∧
    (resolveChicken v1 v2 .Go .Go).winnerId =
      some (if v2.urgency ≤ v1.urgency then v1.id else v2.id) ∧
    (chickenUpdateStats (resolveChicken v1 v2 .Go .Go)).collisions = 0 ∧
    (chickenUpdateStats (resolveChicken v1 v2 .Go .Go)).nearMisses = 1 := by
  by_cases h : v2.urgency ≤ v1.urgency <;>
    simp [resolveChicken, chickenUpdateStats, h]

/-- The lower-urgency player of the C3 counterexample. -/
def chkLow : Vehicle := demoVehicle 1 .N .AUCTION 0 none none 3 50

/-- The higher-urgency player of the C3 counterexample. -/
def chkHigh : Vehicle := demoVehicle 2 .S .AUCTION 0 none none 7 50

/-- C3 counterexample: with urgencies 3 (player A) and 7 (player B) and a
double Go, the code forces the *lower*-urgency player A to Yield and the
higher-urgency player B keeps Go and wins — the claim predicts the
higher-urgency agent is the one forced to Yield. -/
theorem chicken_go_go_counterexample :
    (resolveChicken chkLow chkHigh .Go .Go).actionA = ChickenAction.Yield ∧
    (resolveChicken chkLow chkHigh .Go .Go).actionB = ChickenAction.Go ∧
    (resolveChicken chkLow chkHigh .Go .Go).winnerId = some 2 ∧
    chkLow.urgency = 3 ∧ chkHigh.urgency = 7 := by decide

/-! ## C4 — FCFS selection order -/

/-- The sort key the claim asserts:
`(barrier_time ?? arrival_time, arrival_time, id)` with none-coalescing
`??` and the id as final tiebreak.  (Spec-side definition, for comparison
with the source's `fcfsKey`.) -/
def fcfsClaimKey (v : Vehicle) : ℕ ×ₗ (ℕ ×ₗ ℕ) :=
  toLex (v.barrierTime.getD v.arrivalTime, toLex (v.arrivalTime, v.id))

/-- The winner the claim predicts: the minimum under `fcfsClaimKey`.
(Spec-side definition.) -/
def claimFcfsWinner (cs : List Vehicle) : Option Vehicle :=
  leftmostMinBy fcfsClaimKey cs

/-- First C4 counterexample vehicle (id 1). -/
def c4a : Vehicle := demoVehicle 1 .N .FCFS 0 (some 5) none 0 50

/-- Second C4 counterexample vehicle (id 2). -/
def c4b : Vehicle := demoVehicle 2 .S .FCFS 0 (some 5) none 0 50

/-- C4 counterexample: two candidates with identical timestamps
(barrier 5, arrival 0), presented as `[id 2, id 1]`.  The source selects
the first-listed candidate (id 2) because its sort key has no id
component and Python's sort is stable; the claim's order
`(barrier ?? arrival, arrival, id)` predicts id 1. -/
theorem fcfs_id_tiebreak_counterexample :
    fcfsSelect [c4b, c4a] = some c4b ∧
    claimFcfsWinner [c4b, c4a] = some c4a ∧
    c4b.id = 2 ∧ c4a.id = 1 ∧ fcfsKey c4a = fcfsKey c4b := by decide

/-- C4 (amended): for every non-empty candidate list, `select` returns
the leftmost candidate minimal under `(barrier_time or arrival_time,
arrival_time)` — key ties are broken by presentation order (stable sort),
not by id — and `select_at_conflict` likewise returns the leftmost
candidate minimal under `entry_time or 0`. -/
theorem fcfs_select_stable_min (cs : List Vehicle) (h : cs ≠ []) :
    fcfsSelect cs = leftmostMinBy fcfsKey cs ∧
    fcfsSelectAtConflict cs = leftmostMinBy fcfsConflictKey cs ∧
    ∃ w ∈ cs, fcfsSelect cs = some w ∧ ∀ v ∈ cs, fcfsKey w ≤ fcfsKey v := by
  have hne : ¬cs.isEmpty := by
    cases cs with
    | nil => exact absurd rfl h
    | cons x xs => simp
  have h1 : fcfsSelect cs = leftmostMinBy fcfsKey cs := by
    unfold fcfsSelect
    rw [if_neg hne]
    exact head?_pySortAsc fcfsKey cs
  have h2 : fcfsSelectAtConflict cs = leftmostMinBy fcfsConflictKey cs := by
    unfold fcfsSelectAtConflict
    rw [if_neg hne]
    by_cases hlen : cs.length = 1
    · rw [if_pos hlen]
      cases cs with
      | nil => exact absurd rfl h
      | cons x xs =>
        cases xs with
        | nil => rfl
        | cons y ys => simp at hlen
    · rw [if_neg hlen]
      exact head?_pySortAsc fcfsConflictKey cs
  refine ⟨h1, h2, ?_⟩
  have hsome := leftmostMinBy_isSome fcfsKey h
  cases hw : leftmostMinBy fcfsKey cs with
  | none => rw [hw] at hsome; exact Bool.noConfusion hsome
  | some w =>
    exact ⟨w, leftmostMinBy_mem fcfsKey hw, h1.trans hw,
           leftmostMinBy_min fcfsKey hw⟩

/-- C4 witness: the amended FCFS characterisation evaluated on the
concrete two-candidate list of the counterexample. -/
theorem fcfs_select_stable_min_witness :
    fcfsSelect [c4b, c4a] = leftmostMinBy fcfsKey [c4b, c4a] ∧
    fcfsSelectAtConflict [c4b, c4a] =
      leftmostMinBy fcfsConflictKey [c4b, c4a] ∧
    ∃ w ∈ [c4b, c4a], fcfsSelect [c4b, c4a] = some w ∧
      ∀ v ∈ [c4b, c4a], fcfsKey w ≤ fcfsKey v :=
  fcfs_select_stable_min [c4b, c4a] (by decide)

/-! ## C9 — what selection does to the candidates' fields -/

/-- A vehicle with its (mutable) cached `bid_amount` blanked: two vehicles
agree under `eraseBid` exactly when they agree on every other field. -/
def eraseBid (v : Vehicle) : Vehicle := { v with bidAmount := 0 }

/-- C9 (amended): auction and negotiation selection leave every candidate
field except the cached `bid_amount` unchanged; that one field is
refreshed to the recomputed `calculate_bid()` value for every candidate
(for negotiation: whenever the sort runs, i.e. with two or more
candidates).  Conflict-side negotiation selection touches nothing. -/
theorem select_bid_cache_frame (t : AuctionType) (cs ws : List Vehicle)
    (n : ℕ) (g : Rng) :
    (auctionSelect t cs).2 = cs.map calcBidUpd ∧
    (auctionSelect t cs).2.map eraseBid = cs.map eraseBid ∧
    (2 ≤ cs.length → (negotiationSelect cs n g).2.1 = cs.map calcBidUpd) ∧
    (negotiationSelect cs n g).2.1.map eraseBid = cs.map eraseBid ∧
    (negotiationSelectAtConflict ws n g).2.1 = ws := by
  have hmap : ∀ l : List Vehicle,
      (l.map calcBidUpd).map eraseBid = l.map eraseBid := by
    intro l
    rw [List.map_map]
    rfl
  have ha : (auctionSelect t cs).2 = cs.map calcBidUpd := by
    match cs with
    | [] => rfl
    | [v] => rfl
    | v1 :: v2 :: rest => rfl
  have hn : (negotiationSelect cs n g).2.1 = cs.map calcBidUpd ∨
      (negotiationSelect cs n g).2.1 = cs := by
    match cs with
    | [] => exact .inr rfl
    | [v] => exact .inr rfl
    | v1 :: v2 :: rest => exact .inl rfl
  refine ⟨ha, by rw [ha]; exact hmap cs, ?_, ?_, ?_⟩
  · intro hlen
    match cs with
    | [] => simp at hlen
    | [v] => simp at hlen
    | v1 :: v2 :: rest => rfl
  · rcases hn with h | h
    · rw [h]; exact hmap cs
    · rw [h]
  · match ws with
    | [] => rfl
    | [v] => rfl
    | v1 :: v2 :: rest => rfl

/-- First C9 counterexample candidate (urgency 5, cached bid 0). -/
def n9a : Vehicle := demoVehicle 1 .N .NEGOTIATION 0 none none 5 50

/-- Second C9 counterexample candidate (urgency 8, cached bid 0). -/
def n9b : Vehicle := demoVehicle 2 .S .NEGOTIATION 0 none none 8 50

/-- C9 counterexample: negotiation selection over two fresh candidates
(cached `bid_amount` 0) rewrites both candidates' `bid_amount` fields (to
50 and 80) while sorting by `calculate_bid()` — selection is not
read-only over agent fields. -/
theorem select_readonly_counterexample :
    ((negotiationSelect [n9a, n9b] 5 ⟨fun _ => 0, 0⟩).2.1).map
        Vehicle.bidAmount = [50, 80] ∧
    [n9a, n9b].map Vehicle.bidAmount = [0, 0] := by decide

/-- C9 witness: the frame theorem evaluated on the concrete candidates of
the counterexample. -/
theorem select_bid_cache_frame_witness :
    (auctionSelect .vickrey [n9a, n9b]).2 = [n9a, n9b].map calcBidUpd ∧
    (auctionSelect .vickrey [n9a, n9b]).2.map eraseBid =
      [n9a, n9b].map eraseBid ∧
    (2 ≤ [n9a, n9b].length →
      (negotiationSelect [n9a, n9b] 5 ⟨fun _ => 0, 0⟩).2.1 =
        [n9a, n9b].map calcBidUpd) ∧
    (negotiationSelect [n9a, n9b] 5 ⟨fun _ => 0, 0⟩).2.1.map eraseBid =
      [n9a, n9b].map eraseBid ∧
    (negotiationSelectAtConflict [n9a, n9b] 5 ⟨fun _ => 0, 0⟩).2.1 =
      [n9a, n9b] :=
  select_bid_cache_frame .vickrey [n9a, n9b] [n9a, n9b] 5 ⟨fun _ => 0, 0⟩

/-! ## C5 — Vickrey second-price correctness -/

theorem foldr_max_le {l : List ℕ} {a : ℕ} (h : ∀ x ∈ l, x ≤ a) :
    l.foldr max 0 ≤ a := by
  induction l with
  | nil => exact Nat.zero_le a
  | cons x xs ih =>
    simp only [List.foldr_cons]
    exact max_le (h x (List.mem_cons_self x xs))
      (ih fun y hy => h y (List.mem_cons_of_mem x hy))

theorem foldr_max_eq {l : List ℕ} {a : ℕ} (ha : a ∈ l)
    (hmax : ∀ x ∈ l, x ≤ a) : l.foldr max 0 = a := by
  induction l with
  | nil => cases ha
  | cons x xs ih =>
    simp only [List.foldr_cons]
    rcases List.mem_cons.mp ha with rfl | ha'
    · exact max_eq_left (foldr_max_le fun y hy =>
        hmax y (List.mem_cons_of_mem a hy))
    · rw [ih ha' (fun y hy => hmax y (List.mem_cons_of_mem x hy))]
      exact max_eq_right (hmax x (List.mem_cons_self x xs))

theorem foldr_max_perm {l l' : List ℕ} (p : l.Perm l') :
    l.foldr max 0 = l'.foldr max 0 := by
  induction p with
  | nil => rfl
  | cons x _ ih => simp only [List.foldr_cons, ih]
  | swap x y l => simp only [List.foldr_cons]; rw [max_left_comm]
  | trans _ _ ih1 ih2 => exact ih1.trans ih2

theorem find?_id_nodup {l : List Vehicle} {w : Vehicle}
    (h : (l.map Vehicle.id).Nodup) (hw : w ∈ l) :
    l.find? (fun u => u.id == w.id) = some w := by
  induction l with
  | nil => cases hw
  | cons x xs ih =>
    rw [List.map_cons, List.nodup_cons] at h
    by_cases hx : x.id = w.id
    · have hwx : w = x := by
        rcases List.mem_cons.mp hw with rfl | hw'
        · rfl
        · exact absurd (hx ▸ List.mem_map_of_mem Vehicle.id hw') h.1
      simp [List.find?_cons, hx, hwx]
    · have hw' : w ∈ xs := by
        rcases List.mem_cons.mp hw with rfl | hw'
        · exact absurd rfl hx
        · exact hw'
      have : (x.id == w.id) = false := by simp [hx]
      simp [List.find?_cons, this]
      exact ih h.2 hw'

theorem map_id_calcBidUpd (l : List Vehicle) :
    (l.map calcBidUpd).map Vehicle.id = l.map Vehicle.id := by
  rw [List.map_map]; rfl

/-- Characterisation of a Vickrey run on candidates with pairwise distinct
bids and ids: the winner is the (unique) maximum bidder, the price the
second-highest bid. -/
theorem snd_allBidsOf (cs : List Vehicle) :
    (allBidsOf cs).map (fun p : ℕ × ℕ => p.2) = cs.map calcBid := by
  unfold allBidsOf
  rw [List.map_map]; rfl

theorem vickrey_char (cs : List Vehicle) (h2 : 2 ≤ cs.length) :
    ∃ w ∈ cs,
      (runVickrey cs).winnerId = w.id ∧
      (runVickrey cs).winningBid = calcBid w ∧
      (∀ v ∈ cs, calcBid v ≤ calcBid w) ∧
      (runVickrey cs).pricePaid =
        ((cs.map calcBid).erase (calcBid w)).foldr max 0 := by
  have hperm : (pySortDesc (fun p : ℕ × ℕ => p.2) (allBidsOf cs)).Perm
      (allBidsOf cs) := pySort_perm _ _
  have hpair := pairwise_pySortDesc (fun p : ℕ × ℕ => p.2) (allBidsOf cs)
  have hlen : 2 ≤ (pySortDesc (fun p : ℕ × ℕ => p.2) (allBidsOf cs)).length := by
    rw [hperm.length_eq]
    unfold allBidsOf
    rw [List.length_map]
    exact h2
  obtain ⟨p0, p1, rest, hs⟩ :
      ∃ p0 p1 rest, pySortDesc (fun p : ℕ × ℕ => p.2) (allBidsOf cs)
        = p0 :: p1 :: rest := by
    cases hsrt : pySortDesc (fun p : ℕ × ℕ => p.2) (allBidsOf cs) with
    | nil => rw [hsrt] at hlen; simp at hlen
    | cons a as =>
      cases as with
      | nil => rw [hsrt] at hlen; simp at hlen
      | cons b bs => exact ⟨a, b, bs, rfl⟩
  have hrun : runVickrey cs =
      { winnerId := p0.1, winningBid := p0.2, pricePaid := p1.2,
        totalRounds := 1 } := by
    unfold runVickrey
    rw [hs]
  have hp0mem : p0 ∈ allBidsOf cs := hperm.subset (hs ▸ List.mem_cons_self _ _)
  obtain ⟨w, hw, hwp⟩ := List.mem_map.mp hp0mem
  have hmax : ∀ q ∈ allBidsOf cs, q.2 ≤ p0.2 := by
    intro q hq
    have hq' : q ∈ p0 :: p1 :: rest := hs ▸ hperm.symm.subset hq
    rcases List.mem_cons.mp hq' with rfl | hq''
    · exact le_refl _
    · exact (List.pairwise_cons.mp (hs ▸ hpair)).1 q hq''
  have hmaxv : ∀ v ∈ cs, calcBid v ≤ calcBid w := by
    intro v hv
    have hmem : (v.id, calcBid v) ∈ allBidsOf cs := List.mem_map_of_mem _ hv
    have := hmax _ hmem
    rw [← hwp] at this
    exact this
  have hwbid : p0.2 = calcBid w := by rw [← hwp]
  have hsndperm : (p1.2 :: rest.map (fun p : ℕ × ℕ => p.2)).Perm
      ((cs.map calcBid).erase p0.2) := by
    have hmapperm : (p0.2 :: p1.2 :: rest.map (fun p : ℕ × ℕ => p.2)).Perm
        (cs.map calcBid) := by
      have := hperm.map (fun p : ℕ × ℕ => p.2)
      rw [hs, snd_allBidsOf] at this
      exact this
    have hp0bid : p0.2 ∈ cs.map calcBid := hmapperm.subset
      (List.mem_cons_self _ _)
    exact ((List.perm_cons_erase hp0bid).symm.trans hmapperm.symm).cons_inv.symm
  have hsorted2 : ∀ x ∈ p1.2 :: rest.map (fun p : ℕ × ℕ => p.2), x ≤ p1.2 := by
    intro x hx
    rcases List.mem_cons.mp hx with rfl | hx'
    · exact le_refl _
    · obtain ⟨q, hq, hqx⟩ := List.mem_map.mp hx'
      exact hqx ▸ (List.pairwise_cons.mp
        ((List.pairwise_cons.mp (hs ▸ hpair)).2)).1 q hq
  have hprice : ((cs.map calcBid).erase p0.2).foldr max 0 = p1.2 := by
    rw [← foldr_max_perm hsndperm]
    exact foldr_max_eq (List.mem_cons_self _ _) hsorted2
  refine ⟨w, hw, ?_, ?_, hmaxv, ?_⟩
  · rw [hrun, ← hwp]
  · rw [hrun, ← hwp]
  · rw [hrun]
    rw [← hwbid]
    exact hprice.symm

/-- C5: under the Vickrey auction with two or more candidates carrying
pairwise-distinct bids (and distinct ids, as the engine guarantees), the
selected winner is the maximum bidder, the price paid is the
second-highest bid (the maximum of the remaining bids), and both are
independent of the presentation order; a single candidate pays 0. -/
theorem vickrey_second_price (cs : List Vehicle) (h2 : 2 ≤ cs.length)
    (hids : (cs.map Vehicle.id).Nodup) (hbids : (cs.map calcBid).Nodup) :
    (∃ w ∈ cs,
      (auctionSelect .vickrey cs).1 = some (calcBidUpd w, runVickrey cs) ∧
      (runVickrey cs).winnerId = w.id ∧
      (runVickrey cs).winningBid = calcBid w ∧
      (∀ v ∈ cs, calcBid v ≤ calcBid w) ∧
      (runVickrey cs).pricePaid =
        ((cs.map calcBid).erase (calcBid w)).foldr max 0 ∧
      ∀ cs', cs.Perm cs' →
        (runVickrey cs').winnerId = w.id ∧
        (runVickrey cs').pricePaid = (runVickrey cs).pricePaid) ∧
    ∀ v : Vehicle,
      (auctionSelect .vickrey [v]).1 =
        some (calcBidUpd v, ⟨v.id, calcBid v, 0, 1⟩) := by
  obtain ⟨w, hw, hwin, hbid, hmax, hprice⟩ := vickrey_char cs h2
  have hsel : (auctionSelect .vickrey cs).1 =
      some (calcBidUpd w, runVickrey cs) := by
    obtain ⟨a, b, r, rfl⟩ : ∃ a b r, cs = a :: b :: r := by
      cases cs with
      | nil => simp at h2
      | cons a as =>
        cases as with
        | nil => simp at h2
        | cons b bs => exact ⟨a, b, bs, rfl⟩
    show ((((a :: b :: r).map calcBidUpd).find?
        (fun v => v.id == (runVickrey (a :: b :: r)).winnerId)).map
          (fun w => (w, runVickrey (a :: b :: r)))) =
      some (calcBidUpd w, runVickrey (a :: b :: r))
    rw [hwin]
    have hfind : (((a :: b :: r).map calcBidUpd).find?
        (fun v => v.id == (calcBidUpd w).id)) = some (calcBidUpd w) := by
      apply find?_id_nodup
      · rw [map_id_calcBidUpd]; exact hids
      · exact List.mem_map_of_mem _ hw
    have : (fun v : Vehicle => v.id == w.id) =
        (fun v : Vehicle => v.id == (calcBidUpd w).id) := rfl
    rw [this, hfind]
    rfl
  refine ⟨⟨w, hw, hsel, hwin, hbid, hmax, hprice, ?_⟩, fun v => rfl⟩
  intro cs' hp
  obtain ⟨w', hw', hwin', hbid', hmax', hprice'⟩ :=
    vickrey_char cs' (hp.length_eq ▸ h2)
  have hbweq : calcBid w = calcBid w' :=
    le_antisymm (hmax' w (hp.subset hw)) (hmax w' (hp.symm.subset hw'))
  have hww : w = w' :=
    List.inj_on_of_nodup_map hbids hw (hp.symm.subset hw') hbweq
  constructor
  · rw [hwin', ← hww]
  · rw [hprice', hprice, ← hbweq]
    exact foldr_max_perm (((hp.map calcBid).erase (calcBid w)).symm)

/-- Bid-30 candidate of the Vickrey witness (urgency 3). -/
def vkA : Vehicle := demoVehicle 1 .N .AUCTION 0 none none 3 50

/-- Bid-80 candidate of the Vickrey witness (urgency 8). -/
def vkB : Vehicle := demoVehicle 2 .S .AUCTION 0 none none 8 50

/-- Bid-50 candidate of the Vickrey witness (urgency 5). -/
def vkC : Vehicle := demoVehicle 3 .E .AUCTION 0 none none 5 50

/-- C5 witness: the Vickrey theorem applied to candidates with bids
{30, 80, 50}, together with the concrete outcome: winning bid 80, price
paid 50. -/
theorem vickrey_second_price_witness :
    ((∃ w ∈ [vkA, vkB, vkC],
      (auctionSelect .vickrey [vkA, vkB, vkC]).1 =
        some (calcBidUpd w, runVickrey [vkA, vkB, vkC]) ∧
      (runVickrey [vkA, vkB, vkC]).winnerId = w.id ∧
      (runVickrey [vkA, vkB, vkC]).winningBid = calcBid w ∧
      (∀ v ∈ [vkA, vkB, vkC], calcBid v ≤ calcBid w) ∧
      (runVickrey [vkA, vkB, vkC]).pricePaid =
        (([vkA, vkB, vkC].map calcBid).erase (calcBid w)).foldr max 0 ∧
      ∀ cs', [vkA, vkB, vkC].Perm cs' →
        (runVickrey cs').winnerId = w.id ∧
        (runVickrey cs').pricePaid = (runVickrey [vkA, vkB, vkC]).pricePaid) ∧
    ∀ v : Vehicle,
      (auctionSelect .vickrey [v]).1 =
        some (calcBidUpd v, ⟨v.id, calcBid v, 0, 1⟩)) ∧
    (runVickrey [vkA, vkB, vkC]).winningBid = 80 ∧
    (runVickrey [vkA, vkB, vkC]).pricePaid = 50 :=
  ⟨vickrey_second_price [vkA, vkB, vkC] (by decide) (by decide) (by decide),
   by decide, by decide⟩

/-! ## C10 — English auction with a tie at the top -/

theorem englishGo_nil (bids : ℕ → ℕ) (fuel price round : ℕ) :
    englishGo bids fuel [] price round = ([], price, round) := by
  cases fuel <;> simp [englishGo]

/-- Loop analysis for a top tie: while the price has not yet passed the
shared maximal bid `10 * t`, at least the two top bidders stay active; at
price `10 * (t + 1)` everyone is eliminated at once, ending the auction
with no active bidder, price `10 * (t + 1)` and `t + 1` rounds. -/
theorem englishGo_elim (bids : ℕ → ℕ) (t : ℕ) (ht : t ≤ 99) :
    ∀ (r s fuel : ℕ) (active : List ℕ),
      s + r = t → fuel + s = 100 →
      (∀ i ∈ active, bids i ≤ 10 * t) →
      2 ≤ (active.filter (fun i => decide (bids i = 10 * t))).length →
      englishGo bids fuel active (10 * s) s = ([], 10 * (t + 1), t + 1) := by
  intro r
  induction r with
  | zero =>
    intro s fuel active hst hfuel hle htie
    have hts : s = t := by omega
    rw [← hts] at hle htie ⊢
    obtain ⟨f', rfl⟩ : ∃ f', fuel = f' + 1 := ⟨fuel - 1, by omega⟩
    rw [englishGo]
    have hlen : ¬ (active.length ≤ 1) := by
      have := List.length_filter_le (fun i => decide (bids i = 10 * s)) active
      omega
    rw [if_neg hlen]
    have hact : active.filter (fun i => decide (10 * s + 10 ≤ bids i)) = [] := by
      rw [List.filter_eq_nil_iff]
      intro i hi
      have := hle i hi
      simp only [decide_eq_true_eq]
      omega
    show englishGo bids f'
        (active.filter (fun i => decide (10 * s + 10 ≤ bids i)))
        (10 * s + 10) (s + 1) = ([], 10 * (s + 1), s + 1)
    rw [hact, englishGo_nil]
    have h10 : 10 * s + 10 = 10 * (s + 1) := by ring
    rw [h10]
  | succ r ih =>
    intro s fuel active hst hfuel hle htie
    obtain ⟨f', rfl⟩ : ∃ f', fuel = f' + 1 := ⟨fuel - 1, by omega⟩
    rw [englishGo]
    have hlen : ¬ (active.length ≤ 1) := by
      have := List.length_filter_le (fun i => decide (bids i = 10 * t)) active
      omega
    rw [if_neg hlen]
    show englishGo bids f'
        (active.filter (fun i => decide (10 * s + 10 ≤ bids i)))
        (10 * s + 10) (s + 1) = ([], 10 * (t + 1), t + 1)
    have h10 : 10 * s + 10 = 10 * (s + 1) := by ring
    rw [h10]
    apply ih (s + 1) f' _ (by omega) (by omega)
    · intro i hi
      exact hle i (List.mem_of_mem_filter hi)
    · have hff : (active.filter (fun i => decide (10 * (s + 1) ≤ bids i))).filter
          (fun i => decide (bids i = 10 * t)) =
          active.filter (fun i => decide (bids i = 10 * t)) := by
        rw [List.filter_filter]
        apply List.filter_congr
        intro i _
        by_cases hb : bids i = 10 * t
        · simp [hb]
          omega
        · simp [hb]
      rw [hff]
      exact htie

theorem lookupBid_allBids {cs : List Vehicle} {v : Vehicle}
    (hids : (cs.map Vehicle.id).Nodup) (hv : v ∈ cs) :
    lookupBid (allBidsOf cs) v.id = calcBid v := by
  induction cs with
  | nil => cases hv
  | cons x xs ih =>
    rw [List.map_cons, List.nodup_cons] at hids
    unfold lookupBid allBidsOf
    by_cases hx : x.id = v.id
    · have hvx : v = x := by
        rcases List.mem_cons.mp hv with rfl | hv'
        · rfl
        · exact absurd (hx ▸ List.mem_map_of_mem Vehicle.id hv') hids.1
      simp [List.find?_cons, hx, hvx]
    · have hv' : v ∈ xs := by
        rcases List.mem_cons.mp hv with rfl | hv'
        · exact absurd rfl hx
        · exact hv'
      have hbeq : (x.id == v.id) = false := by simp [hx]
      simp only [List.map_cons, List.find?_cons, hbeq]
      exact ih hids.2 hv'

theorem fst_allBidsOf (cs : List Vehicle) :
    (allBidsOf cs).map (fun p : ℕ × ℕ => p.1) = cs.map Vehicle.id := by
  unfold allBidsOf
  rw [List.map_map]; rfl

/-- C10: when two or more candidates tie for the maximal bid `m = 10·t`
(`10 ≤ m ≤ 990`, i.e. `1 ≤ t ≤ 99`), the English auction eliminates every
still-active bidder in the same round — the loop ends with no active
bidder — the winner is picked by the max-original-bid fallback (the first
candidate with bid `m`), and the price paid is `m + 10`, strictly above
the winner's own bid `m`. -/
theorem english_tie_overshoot (cs : List Vehicle) (t : ℕ)
    (_ht1 : 1 ≤ t) (ht2 : t ≤ 99)
    (hids : (cs.map Vehicle.id).Nodup)
    (hle : ∀ v ∈ cs, calcBid v ≤ 10 * t)
    (htie : 2 ≤ (cs.filter (fun v => decide (calcBid v = 10 * t))).length) :
    (runEnglish cs).pricePaid = 10 * t + 10 ∧
    (runEnglish cs).totalRounds = t + 1 ∧
    (runEnglish cs).winningBid = 10 * t ∧
    (runEnglish cs).winningBid < (runEnglish cs).pricePaid ∧
    (englishGo (lookupBid (allBidsOf cs)) 100
      ((allBidsOf cs).map (·.1)) 0 0).1 = [] ∧
    ∃ p, leftmostMaxBy (fun p : ℕ × ℕ => p.2) (allBidsOf cs) = some p ∧
      (runEnglish cs).winnerId = p.1 ∧ p.2 = 10 * t := by
  have hids' : ∀ v ∈ cs, lookupBid (allBidsOf cs) v.id = calcBid v :=
    fun v hv => lookupBid_allBids hids hv
  have hfilter : ((allBidsOf cs).map (·.1)).filter
      (fun i => decide (lookupBid (allBidsOf cs) i = 10 * t)) =
      (cs.filter (fun v => decide (calcBid v = 10 * t))).map Vehicle.id := by
    rw [fst_allBidsOf, List.filter_map]
    congr 1
    apply List.filter_congr
    intro v hv
    simp only [Function.comp_apply]
    rw [hids' v hv]
  have hgo : englishGo (lookupBid (allBidsOf cs)) 100
      ((allBidsOf cs).map (·.1)) 0 0 = ([], 10 * (t + 1), t + 1) := by
    have h0 : (0 : ℕ) = 10 * 0 := rfl
    rw [h0]
    apply englishGo_elim (lookupBid (allBidsOf cs)) t ht2 t 0 100
    · omega
    · omega
    · intro i hi
      rw [fst_allBidsOf] at hi
      obtain ⟨v, hv, rfl⟩ := List.mem_map.mp hi
      rw [hids' v hv]
      exact hle v hv
    · rw [hfilter, List.length_map]
      exact htie
  have hcs : cs ≠ [] := by
    intro h
    rw [h] at htie
    simp at htie
  have hab : allBidsOf cs ≠ [] := by
    unfold allBidsOf
    intro h
    exact hcs (List.map_eq_nil_iff.mp h)
  have hsome := leftmostMinBy_isSome
    (fun p : ℕ × ℕ => -(p.2 : ℤ)) (l := allBidsOf cs) hab
  obtain ⟨p, hp⟩ : ∃ p, leftmostMaxBy (fun p : ℕ × ℕ => p.2) (allBidsOf cs)
      = some p := by
    unfold leftmostMaxBy
    cases h : leftmostMinBy (fun p : ℕ × ℕ => -(p.2 : ℤ)) (allBidsOf cs) with
    | none => rw [h] at hsome; exact Bool.noConfusion hsome
    | some q => exact ⟨q, rfl⟩
  have hpmem : p ∈ allBidsOf cs := leftmostMaxBy_mem _ hp
  have hpmax : ∀ q ∈ allBidsOf cs, q.2 ≤ p.2 :=
    leftmostMaxBy_max (fun p : ℕ × ℕ => p.2) hp
  have hp2 : p.2 = 10 * t := by
    obtain ⟨v, hv, rfl⟩ := List.mem_map.mp hpmem
    have h1 : calcBid v ≤ 10 * t := hle v hv
    obtain ⟨u, hu⟩ : ∃ u, u ∈ cs.filter (fun v => decide (calcBid v = 10 * t)) := by
      cases hflt : cs.filter (fun v => decide (calcBid v = 10 * t)) with
      | nil => rw [hflt] at htie; simp at htie
      | cons a as => exact ⟨a, hflt ▸ List.mem_cons_self a as⟩
    have humem := List.mem_of_mem_filter hu
    have hubid : calcBid u = 10 * t := by
      have := List.of_mem_filter hu
      simpa using this
    have h2 : 10 * t ≤ calcBid v := by
      have := hpmax (u.id, calcBid u) (List.mem_map_of_mem _ humem)
      simp only at this
      omega
    simp only
    omega
  have hwid : (runEnglish cs).winnerId = p.1 := by
    show englishWinnerId cs (englishGo (lookupBid (allBidsOf cs)) 100
      ((allBidsOf cs).map (·.1)) 0 0).1 = p.1
    rw [hgo]
    show englishWinnerId cs [] = p.1
    unfold englishWinnerId
    rw [hp]
  have hwbid : (runEnglish cs).winningBid = 10 * t := by
    show lookupBid (allBidsOf cs) (englishWinnerId cs
      (englishGo (lookupBid (allBidsOf cs)) 100
        ((allBidsOf cs).map (·.1)) 0 0).1) = 10 * t
    rw [hgo]
    show lookupBid (allBidsOf cs) (englishWinnerId cs []) = 10 * t
    unfold englishWinnerId
    rw [hp]
    show lookupBid (allBidsOf cs) p.1 = 10 * t
    obtain ⟨v, hv, hvp⟩ := List.mem_map.mp hpmem
    have : p.1 = v.id := by rw [← hvp]
    rw [this, hids' v hv]
    have : p.2 = calcBid v := by rw [← hvp]
    rw [← this, hp2]
  have hprice : (runEnglish cs).pricePaid = 10 * t + 10 := by
    show (englishGo (lookupBid (allBidsOf cs)) 100
      ((allBidsOf cs).map (·.1)) 0 0).2.1 = 10 * t + 10
    rw [hgo]
    show 10 * (t + 1) = 10 * t + 10
    ring
  have hrounds : (runEnglish cs).totalRounds = t + 1 := by
    show (englishGo (lookupBid (allBidsOf cs)) 100
      ((allBidsOf cs).map (·.1)) 0 0).2.2 = t + 1
    rw [hgo]
  refine ⟨hprice, hrounds, hwbid, ?_, by rw [hgo], p, hp, hwid, hp2⟩
  rw [hwbid, hprice]
  omega

/-- Tied candidate 1 of the C10 witness (bid 50). -/
def egA : Vehicle := demoVehicle 1 .N .AUCTION 0 none none 5 50

/-- Tied candidate 2 of the C10 witness (bid 50). -/
def egB : Vehicle := demoVehicle 2 .S .AUCTION 0 none none 5 50

/-- Low candidate of the C10 witness (bid 30). -/
def egC : Vehicle := demoVehicle 3 .E .AUCTION 0 none none 3 50

/-- C10 witness: the English-auction tie theorem applied to bids
{50, 50, 30} (`m = 50`, `t = 5`): price paid 60, six rounds, winning bid
50. -/
theorem english_tie_overshoot_witness :
    (runEnglish [egA, egB, egC]).pricePaid = 10 * 5 + 10 ∧
    (runEnglish [egA, egB, egC]).totalRounds = 5 + 1 ∧
    (runEnglish [egA, egB, egC]).winningBid = 10 * 5 ∧
    (runEnglish [egA, egB, egC]).winningBid <
      (runEnglish [egA, egB, egC]).pricePaid ∧
    (englishGo (lookupBid (allBidsOf [egA, egB, egC])) 100
      ((allBidsOf [egA, egB, egC]).map (·.1)) 0 0).1 = [] ∧
    ∃ p, leftmostMaxBy (fun p : ℕ × ℕ => p.2) (allBidsOf [egA, egB, egC])
        = some p ∧
      (runEnglish [egA, egB, egC]).winnerId = p.1 ∧ p.2 = 10 * 5 :=
  english_tie_overshoot [egA, egB, egC] 5 (by decide) (by decide) (by decide)
    (by decide) (by decide)

/-! ## C6 — negotiation scores and the COUNTER round -/

/-- With urgency ≥ 1 (always true for vehicles under the negotiation
mechanism), fuel ≤ 100, a wait that is not negative and a non-negative
random draw, a priority score is at least 1 — so the literal `1` inside
the source's `max(score1, score2, 1)` never bites. -/
theorem priorityScore_ge_one (v : Vehicle) (t : ℕ) (r : ℚ)
    (hu : 1 ≤ v.urgency) (hf : v.fuelLevel ≤ 100) (ha : v.arrivalTime ≤ t)
    (hr : 0 ≤ r) : (1 : ℚ) ≤ priorityScore v t r := by
  unfold priorityScore
  have hu' : (1 : ℚ) ≤ (v.urgency : ℚ) := by exact_mod_cast hu
  have hf' : (v.fuelLevel : ℚ) ≤ 100 := by exact_mod_cast hf
  have hw : (0 : ℚ) ≤ (((t : ℤ) - v.arrivalTime : ℤ) : ℚ) := by
    have : (0 : ℤ) ≤ (t : ℤ) - v.arrivalTime := by
      have := ha
      omega
    exact_mod_cast this
  have hmin : (0 : ℚ) ≤ min ((((t : ℤ) - v.arrivalTime : ℤ) : ℚ) / 50) 1 :=
    le_min (by linarith) (by norm_num)
  have hraw : (4 : ℚ) ≤ (v.urgency : ℚ) / 10 * 40 +
      min ((((t : ℤ) - v.arrivalTime : ℤ) : ℚ) / 50) 1 * 35 +
      (1 - (v.fuelLevel : ℚ) / 100) * 15 + r * 10 := by
    nlinarith
  have hnear := pyRound1_near ((v.urgency : ℚ) / 10 * 40 +
      min ((((t : ℤ) - v.arrivalTime : ℤ) : ℚ) / 50) 1 * 35 +
      (1 - (v.fuelLevel : ℚ) / 100) * 15 + r * 10)
  rw [abs_le] at hnear
  linarith [hnear.1]

/-- The PROPOSE scores consume the next two draws of the generator. -/
theorem negScores_eq (v1 v2 : Vehicle) (t : ℕ) (g : Rng) :
    negScores v1 v2 t g =
      (priorityScore v1 t (g.f g.idx), priorityScore v2 t (g.f (g.idx + 1)),
       ⟨g.f, g.idx + 2⟩) := rfl

theorem negResultOf_score1 (v1 v2 : Vehicle) (s1 s2 : ℚ) (t : ℕ) :
    (negResultOf v1 v2 s1 s2 t).score1 = s1 := by
  unfold negResultOf
  by_cases hfl : (if negClose s1 s2 then negAdjust v2 t s2 else s2) ≤
      (if negClose s1 s2 then negAdjust v1 t s1 else s1) <;>
    simp [hfl]

theorem negResultOf_score2 (v1 v2 : Vehicle) (s1 s2 : ℚ) (t : ℕ) :
    (negResultOf v1 v2 s1 s2 t).score2 = s2 := by
  unfold negResultOf
  by_cases hfl : (if negClose s1 s2 then negAdjust v2 t s2 else s2) ≤
      (if negClose s1 s2 then negAdjust v1 t s1 else s1) <;>
    simp [hfl]

theorem negResultOf_closeDelta (v1 v2 : Vehicle) (s1 s2 : ℚ) (t : ℕ) :
    (negResultOf v1 v2 s1 s2 t).closeDelta =
      if negClose s1 s2 then 1 else 0 := by
  unfold negResultOf
  by_cases hfl : (if negClose s1 s2 then negAdjust v2 t s2 else s2) ≤
      (if negClose s1 s2 then negAdjust v1 t s1 else s1) <;>
    simp [hfl]

theorem negResultOf_totalRounds (v1 v2 : Vehicle) (s1 s2 : ℚ) (t : ℕ) :
    (negResultOf v1 v2 s1 s2 t).totalRounds =
      if negClose s1 s2 then 4 else 3 := by
  unfold negResultOf
  by_cases hfl : (if negClose s1 s2 then negAdjust v2 t s2 else s2) ≤
      (if negClose s1 s2 then negAdjust v1 t s1 else s1) <;>
    simp [hfl]

theorem negResultOf_final1 (v1 v2 : Vehicle) (s1 s2 : ℚ) (t : ℕ) :
    (negResultOf v1 v2 s1 s2 t).finalScore1 =
      if negClose s1 s2 then negAdjust v1 t s1 else s1 := by
  unfold negResultOf
  by_cases hfl : (if negClose s1 s2 then negAdjust v2 t s2 else s2) ≤
      (if negClose s1 s2 then negAdjust v1 t s1 else s1) <;>
    simp [hfl]

theorem negResultOf_final2 (v1 v2 : Vehicle) (s1 s2 : ℚ) (t : ℕ) :
    (negResultOf v1 v2 s1 s2 t).finalScore2 =
      if negClose s1 s2 then negAdjust v2 t s2 else s2 := by
  unfold negResultOf
  by_cases hfl : (if negClose s1 s2 then negAdjust v2 t s2 else s2) ≤
      (if negClose s1 s2 then negAdjust v1 t s1 else s1) <;>
    simp [hfl]

theorem negResultOf_winnerId (v1 v2 : Vehicle) (s1 s2 : ℚ) (t : ℕ) :
    (negResultOf v1 v2 s1 s2 t).winnerId =
      if (negResultOf v1 v2 s1 s2 t).finalScore2 ≤
          (negResultOf v1 v2 s1 s2 t).finalScore1
      then v1.id else v2.id := by
  rw [negResultOf_final1, negResultOf_final2]
  unfold negResultOf
  by_cases hfl : (if negClose s1 s2 then negAdjust v2 t s2 else s2) ≤
      (if negClose s1 s2 then negAdjust v1 t s1 else s1) <;>
    simp [hfl]

theorem runNegotiation_fst (v1 v2 : Vehicle) (t : ℕ) (g : Rng) :
    (runNegotiation v1 v2 t g).1 =
      negResultOf v1 v2 (priorityScore v1 t (g.f g.idx))
        (priorityScore v2 t (g.f (g.idx + 1))) t := rfl

/-- C6: each party's PROPOSE score is exactly `priorityScore` of
`(urgency, wait_time, fuel)` and the fixed random draw; the COUNTER round
runs — equivalently, the close-negotiation counter is incremented, and
the protocol has 4 rounds instead of 3 — iff
`|score1 − score2| < 0.1·max(score1, score2)`; when it runs, each final
score is the proposed score plus `wait_time × 0.3`, and the decision
compares the (possibly adjusted) final scores, party 1 winning ties. -/
theorem negotiation_counter_iff (v1 v2 : Vehicle) (t : ℕ) (g : Rng)
    (hu1 : 1 ≤ v1.urgency) (_hu2 : 1 ≤ v2.urgency)
    (hf1 : v1.fuelLevel ≤ 100) (_hf2 : v2.fuelLevel ≤ 100)
    (ha1 : v1.arrivalTime ≤ t) (_ha2 : v2.arrivalTime ≤ t)
    (hr1 : 0 ≤ g.f g.idx) (_hr2 : 0 ≤ g.f (g.idx + 1)) :
    (runNegotiation v1 v2 t g).1.score1 = priorityScore v1 t (g.f g.idx) ∧
    (runNegotiation v1 v2 t g).1.score2 =
      priorityScore v2 t (g.f (g.idx + 1)) ∧
    ((runNegotiation v1 v2 t g).1.closeDelta = 1 ↔
      |priorityScore v1 t (g.f g.idx) -
        priorityScore v2 t (g.f (g.idx + 1))| <
      max (priorityScore v1 t (g.f g.idx))
        (priorityScore v2 t (g.f (g.idx + 1))) / 10) ∧
    ((runNegotiation v1 v2 t g).1.totalRounds = 4 ↔
      (runNegotiation v1 v2 t g).1.closeDelta = 1) ∧
    ((runNegotiation v1 v2 t g).1.closeDelta = 1 →
      (runNegotiation v1 v2 t g).1.finalScore1 =
        negAdjust v1 t (priorityScore v1 t (g.f g.idx)) ∧
      (runNegotiation v1 v2 t g).1.finalScore2 =
        negAdjust v2 t (priorityScore v2 t (g.f (g.idx + 1)))) ∧
    ((runNegotiation v1 v2 t g).1.closeDelta = 0 →
      (runNegotiation v1 v2 t g).1.finalScore1 =
        priorityScore v1 t (g.f g.idx) ∧
      (runNegotiation v1 v2 t g).1.finalScore2 =
        priorityScore v2 t (g.f (g.idx + 1))) ∧
    ((runNegotiation v1 v2 t g).1.winnerId =
      if (runNegotiation v1 v2 t g).1.finalScore2 ≤
          (runNegotiation v1 v2 t g).1.finalScore1
      then v1.id else v2.id) := by
  have hs1 : (1 : ℚ) ≤ priorityScore v1 t (g.f g.idx) :=
    priorityScore_ge_one v1 t _ hu1 hf1 ha1 hr1
  have hMpos : (0 : ℚ) < max (priorityScore v1 t (g.f g.idx))
      (priorityScore v2 t (g.f (g.idx + 1))) :=
    lt_of_lt_of_le one_pos (le_max_of_le_left hs1)
  have hM1 : max (max (priorityScore v1 t (g.f g.idx))
      (priorityScore v2 t (g.f (g.idx + 1)))) 1 =
      max (priorityScore v1 t (g.f g.idx))
        (priorityScore v2 t (g.f (g.idx + 1))) :=
    max_eq_left (le_max_of_le_left hs1)
  have hcond : negClose (priorityScore v1 t (g.f g.idx))
      (priorityScore v2 t (g.f (g.idx + 1))) = true ↔
      |priorityScore v1 t (g.f g.idx) -
        priorityScore v2 t (g.f (g.idx + 1))| <
      max (priorityScore v1 t (g.f g.idx))
        (priorityScore v2 t (g.f (g.idx + 1))) / 10 := by
    unfold negClose
    rw [decide_eq_true_eq, hM1, div_mul_eq_mul_div, div_lt_iff₀ hMpos,
        lt_div_iff₀ (show (0 : ℚ) < 10 by norm_num)]
    constructor <;> intro h <;> linarith
  rw [runNegotiation_fst, negResultOf_score1, negResultOf_score2,
      negResultOf_closeDelta, negResultOf_totalRounds, negResultOf_final1,
      negResultOf_final2, negResultOf_winnerId, negResultOf_final1,
      negResultOf_final2]
  cases hcl : negClose (priorityScore v1 t (g.f g.idx))
      (priorityScore v2 t (g.f (g.idx + 1)))
  · rw [hcl] at hcond
    refine ⟨rfl, rfl, ?_, ?_, ?_, ?_, rfl⟩
    · simp only [if_neg Bool.false_ne_true]
      constructor
      · intro h; cases h
      · intro h
        exact absurd (hcond.mpr h) (by simp)
    · simp only [if_neg Bool.false_ne_true]
      constructor
      · intro h; cases h
      · intro h; cases h
    · intro h
      simp only [if_neg Bool.false_ne_true] at h
      cases h
    · intro _
      exact ⟨by simp, by simp⟩
  · rw [hcl] at hcond
    refine ⟨rfl, rfl, ?_, ?_, ?_, ?_, rfl⟩
    · simp only [if_pos rfl]
      exact ⟨fun _ => hcond.mp rfl, fun _ => rfl⟩
    · simp only [if_pos rfl]
      exact ⟨fun _ => rfl, fun _ => rfl⟩
    · intro _
      exact ⟨by simp, by simp⟩
    · intro h
      simp only [if_pos rfl] at h
      cases h

/-- C6 witness: the negotiation theorem applied to the concrete parties
`n9a`, `n9b` at step 5 with the zero random stream. -/
theorem negotiation_counter_iff_witness :
    (runNegotiation n9a n9b 5 ⟨fun _ => 0, 0⟩).1.score1 =
      priorityScore n9a 5 0 :=
  (negotiation_counter_iff n9a n9b 5 ⟨fun _ => 0, 0⟩ (by decide) (by decide)
    (by decide) (by decide) (by decide) (by decide) (by decide) (by decide)).1

/-! ## C1/C7 — the engine invariant

`engineInv` is the inductive invariant of `step()`: unique live agent ids,
queue direction discipline, the corridor/conflict occupancy discipline
(the safety claim) and the wait-time accounting (the statistics claim).
`loopInv` is its generalisation holding at every intermediate state of the
movement loop of `move_corridor_vehicles`, where vehicles that exited this
tick are still in the corridor dict awaiting cleanup. -/

/-- Every vehicle currently owned by a container of the engine. -/
def activeVehicles (s : EngineState) : List Vehicle :=
  s.parkingZones .N ++ s.parkingZones .S ++ s.parkingZones .E ++
  s.parkingZones .W ++ s.barrierQueues .N ++ s.barrierQueues .S ++
  s.barrierQueues .E ++ s.barrierQueues .W ++ s.corridorVehicles

/-- The multiset of live agent ids. -/
def activeIdMS (s : EngineState) : Multiset ℕ :=
  ((activeVehicles s).map Vehicle.id : List ℕ)

/-- The recorded-wait contribution of a list of not-yet-exited vehicles:
`entry_time − arrival_time` each. -/
def cwSumL (l : List Vehicle) : ℤ :=
  ((l.filter (fun v => decide (v.state ≠ .exited))).map
    (fun v => ((v.entryTime.getD 0 : ℕ) : ℤ) - v.arrivalTime)).sum

/-- The recorded-wait contribution of the not-yet-exited corridor
vehicles. -/
def corridorWaitSum (s : EngineState) : ℤ := cwSumL s.corridorVehicles

/-- One grid step from `p` in direction `d`. -/
def stepPos (d : Dir) (p : Pos) : Pos :=
  (p.1 + (MOVE_DIRECTION d).1, p.2 + (MOVE_DIRECTION d).2)

/-- The grid-bounds test of `get_next_position`. -/
def inBounds (p : Pos) : Prop := 0 ≤ p.1 ∧ p.1 < 15 ∧ 0 ≤ p.2 ∧ p.2 < 15

instance : DecidablePred inBounds := fun p => by unfold inBounds; infer_instance

theorem nextPosition_some {v : Vehicle} {p : Pos} (hp : v.pos = some p) :
    v.nextPosition = if inBounds (stepPos v.direction p)
      then some (stepPos v.direction p) else none := by
  unfold Vehicle.nextPosition stepPos inBounds
  rw [hp]

theorem waiting_ne_intersection (d : Dir) :
    WAITING_POSITIONS d ≠ INTERSECTION_POS := by cases d <;> decide

theorem entry_ne_intersection (d : Dir) :
    ENTRY_POINTS d ≠ INTERSECTION_POS := by cases d <;> decide

theorem step_waiting_eq_intersection (d : Dir) :
    stepPos d (WAITING_POSITIONS d) = INTERSECTION_POS ∧
    inBounds (stepPos d (WAITING_POSITIONS d)) := by cases d <;> decide

theorem step_intersection (d : Dir) :
    inBounds (stepPos d INTERSECTION_POS) ∧
    stepPos d INTERSECTION_POS ≠ INTERSECTION_POS := by cases d <;> decide

theorem step_eq_intersection {d : Dir} {p : Pos}
    (h : stepPos d p = INTERSECTION_POS) : p = WAITING_POSITIONS d := by
  obtain ⟨px, py⟩ := p
  cases d <;>
    (simp [stepPos, MOVE_DIRECTION, INTERSECTION_POS, WAITING_POSITIONS,
       Prod.ext_iff] at h ⊢; omega)

theorem move_id (v : Vehicle) : v.move.id = v.id := by
  unfold Vehicle.move
  split
  · split <;> rfl
  · rfl

theorem move_direction (v : Vehicle) : v.move.direction = v.direction := by
  unfold Vehicle.move
  split
  · split <;> rfl
  · rfl

theorem move_arrivalTime (v : Vehicle) :
    v.move.arrivalTime = v.arrivalTime := by
  unfold Vehicle.move
  split
  · split <;> rfl
  · rfl

theorem move_entryTime (v : Vehicle) : v.move.entryTime = v.entryTime := by
  unfold Vehicle.move
  split
  · split <;> rfl
  · rfl

theorem move_state (v : Vehicle) :
    v.move.state = v.state ∨ v.move.state = .exited := by
  unfold Vehicle.move
  split
  · split
    · right; rfl
    · left; rfl
  · left; rfl

/-- The invariant preserved by `step()`. -/
structure engineInv (s : EngineState) : Prop where
  nodup : (activeIdMS s).Nodup
  parkDir : ∀ d, ∀ v ∈ s.parkingZones d, v.direction = d
  barDir : ∀ d, ∀ v ∈ s.barrierQueues d, v.direction = d
  parkId : ∀ d, ∀ v ∈ s.parkingZones d, v.id ≤ s.vehicleCounter
  barId : ∀ d, ∀ v ∈ s.barrierQueues d, v.id ≤ s.vehicleCounter
  corId : ∀ v ∈ s.corridorVehicles, v.id ≤ s.vehicleCounter
  corState : ∀ v ∈ s.corridorVehicles,
    v.state = .inCorridor ∨ v.state = .inConflict
  corRes : ∀ v ∈ s.corridorVehicles,
    s.corridorReserved (axisOf v.direction) = some v.id
  corPos : ∀ v ∈ s.corridorVehicles,
    (v.state = .inConflict ↔ v.pos = some INTERSECTION_POS)
  corZone : ∀ v ∈ s.corridorVehicles,
    v.state = .inConflict → s.conflictZoneVehicle = some v.id
  crossed : s.totalCrossed = s.exitedVehicles.length
  waitSum : s.totalWaitTime = exitedWaitSum s + corridorWaitSum s

/-- The loop invariant of the movement loop: exited-this-tick vehicles may
still sit in the corridor dict, flagged by their id in `exitedIds`. -/
structure loopInv (s : EngineState) (exitedIds : List ℕ) : Prop where
  nodup : (activeIdMS s).Nodup
  parkDir : ∀ d, ∀ v ∈ s.parkingZones d, v.direction = d
  barDir : ∀ d, ∀ v ∈ s.barrierQueues d, v.direction = d
  parkId : ∀ d, ∀ v ∈ s.parkingZones d, v.id ≤ s.vehicleCounter
  barId : ∀ d, ∀ v ∈ s.barrierQueues d, v.id ≤ s.vehicleCounter
  corId : ∀ v ∈ s.corridorVehicles, v.id ≤ s.vehicleCounter
  corState : ∀ v ∈ s.corridorVehicles,
    v.state = .inCorridor ∨ v.state = .inConflict ∨ v.state = .exited
  corRes : ∀ v ∈ s.corridorVehicles, v.state ≠ .exited →
    s.corridorReserved (axisOf v.direction) = some v.id
  corPos : ∀ v ∈ s.corridorVehicles,
    (v.state = .inConflict ↔ v.pos = some INTERSECTION_POS)
  corZone : ∀ v ∈ s.corridorVehicles,
    v.state = .inConflict → s.conflictZoneVehicle = some v.id
  exitedIff : ∀ v ∈ s.corridorVehicles,
    (v.id ∈ exitedIds ↔ v.state = .exited)
  crossed : s.totalCrossed = s.exitedVehicles.length
  waitSum : s.totalWaitTime = exitedWaitSum s + corridorWaitSum s

theorem count_decomp (s : EngineState) (i : ℕ) :
    (activeIdMS s).count i =
      ((s.parkingZones .N).map Vehicle.id).count i +
      ((s.parkingZones .S).map Vehicle.id).count i +
      ((s.parkingZones .E).map Vehicle.id).count i +
      ((s.parkingZones .W).map Vehicle.id).count i +
      ((s.barrierQueues .N).map Vehicle.id).count i +
      ((s.barrierQueues .S).map Vehicle.id).count i +
      ((s.barrierQueues .E).map Vehicle.id).count i +
      ((s.barrierQueues .W).map Vehicle.id).count i +
      (s.corridorVehicles.map Vehicle.id).count i := by
  simp [activeIdMS, activeVehicles, List.count_append]
  omega

theorem nodup_count {s : EngineState} (h : (activeIdMS s).Nodup) (i : ℕ) :
    (activeIdMS s).count i ≤ 1 :=
  Multiset.nodup_iff_count_le_one.mp h i

theorem map_id_eraseP (l : List Vehicle) (b : ℕ) :
    (l.eraseP (fun u => u.id == b)).map Vehicle.id =
      (l.map Vehicle.id).erase b := by
  induction l with
  | nil => rfl
  | cons x xs ih =>
    by_cases hx : x.id = b
    · simp [List.eraseP_cons, List.erase_cons, hx]
    · have h1 : (x.id == b) = false := by simp [hx]
      have h2 : (b == x.id) = false := by simp [Ne.symm hx]
      simp [List.eraseP_cons, List.erase_cons, h1, h2, ih]

theorem map_id_replaceById (l : List Vehicle) (v : Vehicle) :
    (replaceById l v).map Vehicle.id = l.map Vehicle.id := by
  unfold replaceById
  rw [List.map_map]
  apply List.map_congr_left
  intro u _
  by_cases h : u.id = v.id <;> simp [h]

theorem map_replace_id_of_not_mem (w : Vehicle) :
    ∀ (L : List Vehicle), (∀ u ∈ L, u.id ≠ w.id) →
      L.map (fun u => if u.id = w.id then w else u) = L := by
  intro L
  induction L with
  | nil => intro _; rfl
  | cons a as ih =>
    intro hL
    rw [List.map_cons, if_neg (hL a (List.mem_cons_self a as)),
        ih (fun u hu => hL u (List.mem_cons_of_mem a hu))]

theorem replaceById_decomp {l : List Vehicle}
    (hnd : (l.map Vehicle.id).Nodup) {v : Vehicle} (hv : v ∈ l)
    (w : Vehicle) (hw : w.id = v.id) :
    ∃ l1 l2, l = l1 ++ v :: l2 ∧ replaceById l w = l1 ++ w :: l2 ∧
      (∀ u ∈ l1, u.id ≠ v.id) ∧ (∀ u ∈ l2, u.id ≠ v.id) := by
  obtain ⟨l1, l2, rfl⟩ := List.append_of_mem hv
  have hids : (List.map Vehicle.id l1 ++
      v.id :: List.map Vehicle.id l2).Nodup := by
    simpa using hnd
  obtain ⟨hn1, hn2, hdisj⟩ := List.nodup_append.mp hids
  have h1 : ∀ u ∈ l1, u.id ≠ v.id := by
    intro u hu heq
    exact hdisj (List.mem_map_of_mem _ hu)
      (by rw [heq]; exact List.mem_cons_self _ _)
  have h2 : ∀ u ∈ l2, u.id ≠ v.id := by
    intro u hu heq
    rw [List.nodup_cons] at hn2
    exact hn2.1 (by rw [← heq]; exact List.mem_map_of_mem _ hu)
  refine ⟨l1, l2, rfl, ?_, h1, h2⟩
  unfold replaceById
  rw [List.map_append, List.map_cons,
      map_replace_id_of_not_mem w l1 (fun u hu => hw ▸ h1 u hu),
      map_replace_id_of_not_mem w l2 (fun u hu => hw ▸ h2 u hu),
      if_pos hw.symm]

theorem mkVehicle_fields (vid : ℕ) (d : Dir) (arr : ℕ) (u? : Option ℕ)
    (isU : Bool) (mech : Mechanism) (g : Rng) :
    (mkVehicle vid d arr u? isU mech g).1.id = vid ∧
    (mkVehicle vid d arr u? isU mech g).1.direction = d ∧
    (mkVehicle vid d arr u? isU mech g).1.state = .inParking ∧
    (mkVehicle vid d arr u? isU mech g).1.entryTime = none ∧
    (mkVehicle vid d arr u? isU mech g).1.arrivalTime = arr := by
  cases mech <;> cases isU <;> cases u? <;> exact ⟨rfl, rfl, rfl, rfl, rfl⟩

theorem spawnVehicle_char (pol : Policy) (cfg : Config) (d : Dir)
    (s : EngineState) (g : Rng) :
    ∃ v g2, (spawnVehicle pol cfg d s g) =
      ({ s with
          vehicleCounter := s.vehicleCounter + 1
          parkingZones := fun d' => if d' = d then s.parkingZones d ++ [v]
                                    else s.parkingZones d'
          totalSpawned := s.totalSpawned + 1 }, g2) ∧
      v.id = s.vehicleCounter + 1 ∧ v.direction = d ∧
      v.state = .inParking ∧ v.entryTime = none := by
  unfold spawnVehicle
  rcases hIG : (if pol.mech ≠ Mechanism.FCFS then
      (decide ((pyRandom g).1 < cfg.urgentProbability), (pyRandom g).2)
    else (false, g)) with ⟨isU, g1⟩
  rcases hV : mkVehicle (s.vehicleCounter + 1) d s.stepCount none isU
      pol.mech g1 with ⟨v, g2⟩
  obtain ⟨hid, hdir, hst, het, _⟩ := mkVehicle_fields (s.vehicleCounter + 1)
    d s.stepCount none isU pol.mech g1
  rw [hV] at hid hdir hst het
  refine ⟨{ v with pos := some (parkingSlotPos d
      (s.parkingZones d).length) }, g2, ?_, hid, hdir, hst, het⟩
  simp only [hIG, hV]

theorem count_activeIdMS_gt {s : EngineState}
    (hpi : ∀ d, ∀ v ∈ s.parkingZones d, v.id ≤ s.vehicleCounter)
    (hbi : ∀ d, ∀ v ∈ s.barrierQueues d, v.id ≤ s.vehicleCounter)
    (hci : ∀ v ∈ s.corridorVehicles, v.id ≤ s.vehicleCounter)
    {i : ℕ} (hi : s.vehicleCounter < i) : (activeIdMS s).count i = 0 := by
  rw [count_decomp]
  have hz : ∀ (l : List Vehicle), (∀ v ∈ l, v.id ≤ s.vehicleCounter) →
      (l.map Vehicle.id).count i = 0 := by
    intro l hl
    rw [List.count_eq_zero]
    intro hmem
    obtain ⟨v, hv, hvi⟩ := List.mem_map.mp hmem
    exact absurd (hvi ▸ hl v hv) (by omega)
  rw [hz _ (hpi .N), hz _ (hpi .S), hz _ (hpi .E), hz _ (hpi .W),
      hz _ (hbi .N), hz _ (hbi .S), hz _ (hbi .E), hz _ (hbi .W), hz _ hci]

theorem inv_spawnVehicle (pol : Policy) (cfg : Config) (d : Dir)
    (s : EngineState) (g : Rng) (h : engineInv s) :
    engineInv (spawnVehicle pol cfg d s g).1 := by
  obtain ⟨v, g2, hs, hid, hdir, hst, het⟩ := spawnVehicle_char pol cfg d s g
  rw [hs]
  obtain ⟨hnd, hpd, hbd, hpi, hbi, hci, hcs, hcr, hcp, hcz, hx, hw⟩ := h
  have hcount : ∀ i, (activeIdMS { s with
      vehicleCounter := s.vehicleCounter + 1
      parkingZones := fun d' => if d' = d then s.parkingZones d ++ [v]
                                else s.parkingZones d'
      totalSpawned := s.totalSpawned + 1 }).count i =
      (activeIdMS s).count i + (if i = v.id then 1 else 0) := by
    intro i
    rw [count_decomp, count_decomp]
    cases d <;>
      simp [List.count_append, List.count_cons, List.count_singleton] <;>
      by_cases hiv : i = v.id <;> simp [hiv, beq_iff_eq] <;> omega
  constructor
  · rw [Multiset.nodup_iff_count_le_one]
    intro i
    rw [hcount i]
    by_cases hiv : i = v.id
    · rw [if_pos hiv]
      have := count_activeIdMS_gt hpi hbi hci
        (i := i) (by rw [hiv, hid]; omega)
      omega
    · rw [if_neg hiv]
      have := nodup_count hnd i
      omega
  · intro d' u hu
    by_cases hd : d' = d
    · subst hd
      simp only [if_pos rfl] at hu
      rcases List.mem_append.mp hu with h' | h'
      · exact hpd d' u h'
      · rw [List.mem_singleton.mp h']
        exact hdir
    · simp only [if_neg hd] at hu
      exact hpd d' u hu
  · exact hbd
  · intro d' u hu
    by_cases hd : d' = d
    · subst hd
      simp only [if_pos rfl] at hu
      rcases List.mem_append.mp hu with h' | h'
      · exact le_trans (hpi d' u h') (Nat.le_succ _)
      · rw [List.mem_singleton.mp h', hid]
    · simp only [if_neg hd] at hu
      exact le_trans (hpi d' u hu) (Nat.le_succ _)
  · intro d' u hu
    exact le_trans (hbi d' u hu) (Nat.le_succ _)
  · intro u hu
    exact le_trans (hci u hu) (Nat.le_succ _)
  · exact hcs
  · exact hcr
  · exact hcp
  · exact hcz
  · exact hx
  · exact hw

theorem replaceById_append (l1 l2 : List Vehicle) (u w : Vehicle)
    (hw : w.id = u.id) (h1 : ∀ x ∈ l1, x.id ≠ u.id)
    (h2 : ∀ x ∈ l2, x.id ≠ u.id) :
    replaceById (l1 ++ u :: l2) w = l1 ++ w :: l2 := by
  unfold replaceById
  rw [List.map_append, List.map_cons,
      map_replace_id_of_not_mem w l1 (fun x hx he => h1 x hx (he.trans hw)),
      map_replace_id_of_not_mem w l2 (fun x hx he => h2 x hx (he.trans hw)),
      if_pos hw.symm]

theorem activeIdMS_congr {s s' : EngineState}
    (hp : ∀ d, (s'.parkingZones d).map Vehicle.id =
               (s.parkingZones d).map Vehicle.id)
    (hb : ∀ d, (s'.barrierQueues d).map Vehicle.id =
               (s.barrierQueues d).map Vehicle.id)
    (hc : s'.corridorVehicles.map Vehicle.id =
          s.corridorVehicles.map Vehicle.id) :
    activeIdMS s' = activeIdMS s := by
  unfold activeIdMS activeVehicles
  simp only [List.map_append, hp, hb, hc]

theorem cwSumL_append (l1 l2 : List Vehicle) :
    cwSumL (l1 ++ l2) = cwSumL l1 + cwSumL l2 := by
  unfold cwSumL
  rw [List.filter_append, List.map_append, List.sum_append]

theorem cwSumL_cons (x : Vehicle) (l : List Vehicle) :
    cwSumL (x :: l) =
      (if x.state = .exited then 0
       else ((x.entryTime.getD 0 : ℕ) : ℤ) - x.arrivalTime) + cwSumL l := by
  unfold cwSumL
  by_cases hx : x.state = .exited <;> simp [List.filter_cons, hx]

theorem cwSumL_nil : cwSumL [] = 0 := rfl

theorem inv_foldl_sg {f : EngineState × Rng → Dir → EngineState × Rng}
    (hf : ∀ sg d, engineInv sg.1 → engineInv (f sg d).1) :
    ∀ (ds : List Dir) (sg : EngineState × Rng), engineInv sg.1 →
      engineInv (ds.foldl f sg).1 := by
  intro ds
  induction ds with
  | nil => exact fun sg h => h
  | cons d ds ih => exact fun sg h => ih (f sg d) (hf sg d h)

theorem inv_foldl_s {f : EngineState → Dir → EngineState}
    (hf : ∀ s d, engineInv s → engineInv (f s d)) :
    ∀ (ds : List Dir) (s : EngineState), engineInv s →
      engineInv (ds.foldl f s) := by
  intro ds
  induction ds with
  | nil => exact fun s h => h
  | cons d ds ih => exact fun s h => ih (f s d) (hf s d h)

theorem inv_trySpawnVehicles (pol : Policy) (cfg : Config) (s : EngineState)
    (g : Rng) (h : engineInv s) :
    engineInv (trySpawnVehicles pol cfg s g).1 := by
  unfold trySpawnVehicles
  refine inv_foldl_sg ?_ allDirs (s, g) h
  intro sg d hI
  dsimp only
  rcases hq : pyRandom sg.2 with ⟨q, g'⟩
  dsimp only
  split
  · split
    · exact inv_spawnVehicle pol cfg d sg.1 g' hI
    · exact hI
  · exact hI

theorem moveToBarrier_id (v : Vehicle) (t : ℕ) :
    (v.moveToBarrier t).id = v.id := rfl

theorem sortedParking_facts (pol : Policy) (parking : List Vehicle) :
    ∀ u ∈ (if pol.mech = .FCFS then pySortAsc Vehicle.arrivalTime parking
           else pySortDesc calcBid (parking.map calcBidUpd)),
      ∃ p ∈ parking, u.id = p.id ∧ u.direction = p.direction := by
  intro u hu
  by_cases hm : pol.mech = .FCFS
  · rw [if_pos hm] at hu
    unfold pySortAsc at hu
    exact ⟨u, (mem_pySort _ u parking).mp hu, rfl, rfl⟩
  · rw [if_neg hm] at hu
    unfold pySortDesc at hu
    obtain ⟨p, hp, rfl⟩ := List.mem_map.mp ((mem_pySort _ u _).mp hu)
    exact ⟨p, hp, rfl, rfl⟩

theorem sortedParking_perm (pol : Policy) (parking : List Vehicle) :
    ((if pol.mech = .FCFS then pySortAsc Vehicle.arrivalTime parking
      else pySortDesc calcBid (parking.map calcBidUpd)).map
        Vehicle.id).Perm (parking.map Vehicle.id) := by
  by_cases hm : pol.mech = .FCFS
  · rw [if_pos hm]
    unfold pySortAsc
    exact (pySort_perm _ parking).map _
  · rw [if_neg hm]
    unfold pySortDesc
    refine ((pySort_perm _ _).map _).trans ?_
    rw [List.map_map]
    have hmap : parking.map (Vehicle.id ∘ calcBidUpd) =
        parking.map Vehicle.id := List.map_congr_left (fun u _ => rfl)
    rw [hmap]

theorem inv_moveParkingToBarrier (pol : Policy) (s : EngineState)
    (h : engineInv s) : engineInv (moveParkingToBarrier pol s) := by
  unfold moveParkingToBarrier
  refine inv_foldl_s ?_ allDirs s h
  intro s d hI
  dsimp only
  split
  · exact hI
  · split
    · exact hI
    · rename_i _hne v rest hsort
      obtain ⟨hnd, hpd, hbd, hpi, hbi, hci, hcs, hcr, hcp, hcz, hx, hw⟩ := hI
      have hfacts := hsort ▸ sortedParking_facts pol (s.parkingZones d)
      have hperm := hsort ▸ sortedParking_perm pol (s.parkingZones d)
      obtain ⟨p, hp, hvid, hvdir⟩ := hfacts v (List.mem_cons_self v rest)
      have hcount : ∀ i, (activeIdMS { s with
          parkingZones := fun d' => if d' = d then rest
                                    else s.parkingZones d'
          barrierQueues := fun d' =>
            if d' = d then s.barrierQueues d ++ [v.moveToBarrier s.stepCount]
            else s.barrierQueues d' }).count i = (activeIdMS s).count i := by
        intro i
        have hpc := hperm.count_eq i
        rw [count_decomp, count_decomp]
        simp only [List.map_cons, List.count_cons] at hpc
        cases d <;>
          simp [List.count_append, List.count_cons, moveToBarrier_id,
            beq_iff_eq] <;>
          by_cases hiv : v.id = i <;> simp [hiv] at hpc ⊢ <;> omega
      refine ⟨?_, ?_, ?_, ?_, ?_, hci, hcs, hcr, hcp, hcz, hx, hw⟩
      · rw [Multiset.nodup_iff_count_le_one]
        intro i
        rw [hcount i]
        exact nodup_count hnd i
      · intro d' u hu
        by_cases hd : d' = d
        · subst hd
          simp only [if_pos rfl] at hu
          obtain ⟨p', hp', _, hud⟩ :=
            hfacts u (List.mem_cons_of_mem v hu)
          exact hud.trans (hpd d' p' hp')
        · simp only [if_neg hd] at hu
          exact hpd d' u hu
      · intro d' u hu
        by_cases hd : d' = d
        · subst hd
          simp only [if_pos rfl] at hu
          rcases List.mem_append.mp hu with h' | h'
          · exact hbd d' u h'
          · rw [List.mem_singleton.mp h']
            show v.direction = d'
            exact hvdir.trans (hpd d' p hp)
        · simp only [if_neg hd] at hu
          exact hbd d' u hu
      · intro d' u hu
        by_cases hd : d' = d
        · subst hd
          simp only [if_pos rfl] at hu
          obtain ⟨p', hp', hui, _⟩ :=
            hfacts u (List.mem_cons_of_mem v hu)
          exact hui ▸ hpi d' p' hp'
        · simp only [if_neg hd] at hu
          exact hpi d' u hu
      · intro d' u hu
        by_cases hd : d' = d
        · subst hd
          simp only [if_pos rfl] at hu
          rcases List.mem_append.mp hu with h' | h'
          · exact hbi d' u h'
          · rw [List.mem_singleton.mp h']
            show (v.moveToBarrier s.stepCount).id ≤ s.vehicleCounter
            rw [moveToBarrier_id, hvid]
            exact hpi d' p hp
        · simp only [if_neg hd] at hu
          exact hbi d' u hu

theorem axisOf_of_mem_axisDirs {axis : Axis} {d : Dir}
    (h : d ∈ axisDirs axis) : axisOf d = axis := by
  cases axis <;> simp [axisDirs] at h <;> rcases h with rfl | rfl <;> rfl

theorem enterCorridor_fields (w : Vehicle) (t : ℕ) :
    (w.enterCorridor t).id = w.id ∧
    (w.enterCorridor t).direction = w.direction ∧
    (w.enterCorridor t).state = .inCorridor ∧
    (w.enterCorridor t).entryTime = some t ∧
    (w.enterCorridor t).arrivalTime = w.arrivalTime ∧
    (w.enterCorridor t).pos = some (ENTRY_POINTS w.direction) :=
  ⟨rfl, rfl, rfl, rfl, rfl, rfl⟩

theorem inv_processBarrier (pol : Policy) (axis : Axis) (s : EngineState)
    (g : Rng) (h : engineInv s) :
    engineInv (processBarrier pol axis s g).1 := by
  unfold processBarrier
  split
  · exact h
  · rename_i hguard
    have hres : s.corridorReserved axis = none :=
      Option.not_isSome_iff_eq_none.mp (by simpa using hguard)
    dsimp only
    split
    · exact h
    · split
      · exact h
      · rename_i w hsel
        obtain ⟨hnd, hpd, hbd, hpi, hbi, hci, hcs, hcr, hcp, hcz, hx, hw⟩ := h
        have hwmem : w ∈ ((List.map s.barrierQueues
            (axisDirs axis)).flatten) :=
          pol.selectB_mem _ _ _ w hsel
        obtain ⟨L, hL, hwL⟩ := List.mem_flatten.mp hwmem
        obtain ⟨d, hd, rfl⟩ := List.mem_map.mp hL
        have hwdir : w.direction = d := hbd d w hwL
        have hwaxis : axisOf w.direction = axis :=
          hwdir ▸ axisOf_of_mem_axisDirs hd
        have hwQ : w ∈ s.barrierQueues w.direction := hwdir ▸ hwL
        obtain ⟨hei, hed, hes, het, hea, hep⟩ :=
          enterCorridor_fields w s.stepCount
        have hcount : ∀ i, (activeIdMS { s with
            barrierQueues := fun d' =>
              if d' = w.direction then
                (s.barrierQueues d').eraseP (fun u => u.id == w.id)
              else s.barrierQueues d'
            corridorReserved := fun a => if a = axis then some w.id
                                         else s.corridorReserved a
            corridorVehicles :=
              s.corridorVehicles ++ [w.enterCorridor s.stepCount]
            totalWaitTime := s.totalWaitTime +
              ((s.stepCount : ℤ) - w.arrivalTime) }).count i =
            (activeIdMS s).count i := by
          intro i
          rw [count_decomp, count_decomp]
          have hwin : w.id ∈ (s.barrierQueues w.direction).map Vehicle.id :=
            List.mem_map_of_mem _ hwQ
          have hpos := List.count_pos_iff.mpr hwin
          by_cases hiw : i = w.id
          · subst hiw
            cases hD : w.direction <;>
              (rw [hD] at hpos
               simp [map_id_eraseP, List.count_append, List.count_erase,
                 hei, beq_iff_eq]
               omega)
          · have hne : (w.enterCorridor s.stepCount).id ≠ i := by
              rw [hei]; exact fun he => hiw he.symm
            cases hD : w.direction <;>
              simp [map_id_eraseP, List.count_append,
                List.count_erase_of_ne hiw, hne,
                List.count_singleton, beq_iff_eq, Ne.symm hiw]
        refine ⟨?_, hpd, ?_, hpi, ?_, ?_, ?_, ?_, ?_, ?_, hx, ?_⟩
        · rw [Multiset.nodup_iff_count_le_one]
          intro i
          rw [hcount i]
          exact nodup_count hnd i
        · intro d' u hu
          by_cases hdd : d' = w.direction
          · subst hdd
            simp only [if_pos rfl] at hu
            exact hbd _ u ((List.eraseP_sublist _).mem hu)
          · simp only [if_neg hdd] at hu
            exact hbd d' u hu
        · intro d' u hu
          by_cases hdd : d' = w.direction
          · subst hdd
            simp only [if_pos rfl] at hu
            exact hbi _ u ((List.eraseP_sublist _).mem hu)
          · simp only [if_neg hdd] at hu
            exact hbi d' u hu
        · intro u hu
          rcases List.mem_append.mp hu with h' | h'
          · exact hci u h'
          · rw [List.mem_singleton.mp h', hei]
            exact hbi w.direction w hwQ
        · intro u hu
          rcases List.mem_append.mp hu with h' | h'
          · exact hcs u h'
          · rw [List.mem_singleton.mp h', hes]
            left; rfl
        · intro u hu
          rcases List.mem_append.mp hu with h' | h'
          · have hold := hcr u h'
            by_cases hax : axisOf u.direction = axis
            · rw [hax, hres] at hold
              cases hold
            · simp only [if_neg hax]
              exact hcr u h'
          · rw [List.mem_singleton.mp h']
            simp [hed, hei, hwaxis]
        · intro u hu
          rcases List.mem_append.mp hu with h' | h'
          · exact hcp u h'
          · rw [List.mem_singleton.mp h']
            constructor
            · intro hst
              rw [hes] at hst
              cases hst
            · intro hpos
              rw [hep] at hpos
              exact absurd (Option.some.inj hpos)
                (entry_ne_intersection w.direction)
        · intro u hu
          rcases List.mem_append.mp hu with h' | h'
          · exact hcz u h'
          · rw [List.mem_singleton.mp h']
            intro hst
            rw [hes] at hst
            cases hst
        · show s.totalWaitTime + ((s.stepCount : ℤ) - w.arrivalTime) =
            exitedWaitSum s +
            cwSumL (s.corridorVehicles ++ [w.enterCorridor s.stepCount])
          rw [cwSumL_append, cwSumL_cons, cwSumL_nil]
          rw [hes]
          simp only [het, hea]
          have : corridorWaitSum s = cwSumL s.corridorVehicles := rfl
          rw [hw]
          rw [this]
          simp
          ring

theorem corridor_nodup {s : EngineState} (h : (activeIdMS s).Nodup) :
    (s.corridorVehicles.map Vehicle.id).Nodup := by
  rw [List.nodup_iff_count_le_one]
  intro i
  have h1 := nodup_count h i
  rw [count_decomp] at h1
  omega

theorem mem_decomp_nodup {l : List Vehicle}
    (hnd : (l.map Vehicle.id).Nodup) {v : Vehicle} (hv : v ∈ l) :
    ∃ l1 l2, l = l1 ++ v :: l2 ∧ (∀ u ∈ l1, u.id ≠ v.id) ∧
      (∀ u ∈ l2, u.id ≠ v.id) := by
  obtain ⟨l1, l2, h, _, h1, h2⟩ := replaceById_decomp hnd hv v rfl
  exact ⟨l1, l2, h, h1, h2⟩

theorem nextPosition_eq_some {v : Vehicle} {q : Pos}
    (h : v.nextPosition = some q) :
    (v.pos = none ∧ q = ENTRY_POINTS v.direction) ∨
    (∃ p, v.pos = some p ∧ q = stepPos v.direction p ∧
      inBounds (stepPos v.direction p)) := by
  unfold Vehicle.nextPosition at h
  cases hp : v.pos with
  | none =>
    rw [hp] at h
    exact Or.inl ⟨rfl, (Option.some.inj h).symm⟩
  | some p =>
    rw [hp] at h
    dsimp only at h
    split at h
    · rename_i hb
      exact Or.inr ⟨p, rfl, (Option.some.inj h).symm, hb⟩
    · cases h

theorem move_cases {v : Vehicle}
    (h : v.state = .inCorridor ∨ v.state = .inConflict) :
    (v.nextPosition = none ∧
      v.move = { v with pos := none, state := .exited }) ∨
    (∃ q, v.nextPosition = some q ∧
      v.move = { v with
                 pos := some q
                 distanceRemaining := v.distanceRemaining - 1
                 fuelLevel := v.fuelLevel - 1 }) := by
  cases hq : v.nextPosition with
  | none =>
    refine Or.inl ⟨rfl, ?_⟩
    unfold Vehicle.move
    rw [if_pos h, hq]
  | some q =>
    refine Or.inr ⟨q, rfl, ?_⟩
    unfold Vehicle.move
    rw [if_pos h, hq]

theorem mvs_noexit {s : EngineState} {e : List ℕ} {v : Vehicle}
    (h : v.move.hasExited = false) :
    moveVehicleSafely s e v =
      ({ s with corridorVehicles := replaceById s.corridorVehicles v.move },
       e, v.move) := by
  unfold moveVehicleSafely
  dsimp only
  rw [h]
  simp

theorem mvs_exit_cz {s : EngineState} {e : List ℕ} {v : Vehicle}
    (h : v.move.hasExited = true)
    (hcz : s.conflictZoneVehicle = some v.id) :
    moveVehicleSafely s e v =
      ({ s with
          corridorReserved := fun a => if a = axisOf v.direction then none
                                       else s.corridorReserved a
          conflictZoneVehicle := none
          exitedVehicles := s.exitedVehicles ++
            [{ v.move with exitTime := some s.stepCount }]
          totalCrossed := s.totalCrossed + 1
          urgentCrossed :=
            if ({ v.move with exitTime := some s.stepCount } :
                Vehicle).isUrgent then s.urgentCrossed + 1
            else s.urgentCrossed
          corridorVehicles := replaceById s.corridorVehicles
            { v.move with exitTime := some s.stepCount } },
       e ++ [v.id], { v.move with exitTime := some s.stepCount }) := by
  unfold moveVehicleSafely
  dsimp only
  rw [h, if_pos rfl]
  rw [if_pos hcz]

theorem mvs_exit_nocz {s : EngineState} {e : List ℕ} {v : Vehicle}
    (h : v.move.hasExited = true)
    (hcz : ¬s.conflictZoneVehicle = some v.id) :
    moveVehicleSafely s e v =
      ({ s with
          corridorReserved := fun a => if a = axisOf v.direction then none
                                       else s.corridorReserved a
          exitedVehicles := s.exitedVehicles ++
            [{ v.move with exitTime := some s.stepCount }]
          totalCrossed := s.totalCrossed + 1
          urgentCrossed :=
            if ({ v.move with exitTime := some s.stepCount } :
                Vehicle).isUrgent then s.urgentCrossed + 1
            else s.urgentCrossed
          corridorVehicles := replaceById s.corridorVehicles
            { v.move with exitTime := some s.stepCount } },
       e ++ [v.id], { v.move with exitTime := some s.stepCount }) := by
  unfold moveVehicleSafely
  dsimp only
  rw [h, if_pos rfl]
  rw [if_neg hcz]

theorem activeIdMS_eq_of (s' s : EngineState)
    (hp : s'.parkingZones = s.parkingZones)
    (hb : s'.barrierQueues = s.barrierQueues)
    (hc : s'.corridorVehicles.map Vehicle.id =
          s.corridorVehicles.map Vehicle.id) :
    activeIdMS s' = activeIdMS s := by
  unfold activeIdMS activeVehicles
  simp only [List.map_append, hp, hb, hc]

theorem loopInv_collisions {s : EngineState} {e : List ℕ} (h : loopInv s e) :
    loopInv { s with collisionsAvoided := s.collisionsAvoided + 1 } e :=
  ⟨h.nodup, h.parkDir, h.barDir, h.parkId, h.barId, h.corId, h.corState,
   h.corRes, h.corPos, h.corZone, h.exitedIff, h.crossed, h.waitSum⟩

theorem nodup_update {s : EngineState} (hnd : (activeIdMS s).Nodup)
    {l1 l2 : List Vehicle} {v w : Vehicle}
    (hl : s.corridorVehicles = l1 ++ v :: l2) (hw : w.id = v.id)
    {s' : EngineState}
    (hp : s'.parkingZones = s.parkingZones)
    (hb : s'.barrierQueues = s.barrierQueues)
    (hc : s'.corridorVehicles = l1 ++ w :: l2) :
    (activeIdMS s').Nodup := by
  have he : activeIdMS s' = activeIdMS s := by
    apply activeIdMS_eq_of _ _ hp hb
    rw [hc, hl]
    simp [hw]
  rw [he]
  exact hnd

theorem corAll_update {P : Vehicle → Prop} (l1 l2 : List Vehicle)
    (hold1 : ∀ u ∈ l1, P u) (hold2 : ∀ u ∈ l2, P u)
    (w : Vehicle) (hw : P w) :
    ∀ u ∈ l1 ++ w :: l2, P u := by
  intro u hu
  rcases List.mem_append.mp hu with h' | h'
  · exact hold1 u h'
  · rcases List.mem_cons.mp h' with rfl | h''
    · exact hw
    · exact hold2 u h''

theorem waitSum_noexit (s s' : EngineState) (l1 l2 : List Vehicle)
    (v w : Vehicle)
    (hws : s.totalWaitTime = exitedWaitSum s + corridorWaitSum s)
    (hl : s.corridorVehicles = l1 ++ v :: l2)
    (hvne : ¬v.state = .exited) (hwne : ¬w.state = .exited)
    (hwe : w.entryTime = v.entryTime) (hwa : w.arrivalTime = v.arrivalTime)
    (ht : s'.totalWaitTime = s.totalWaitTime)
    (hx : s'.exitedVehicles = s.exitedVehicles)
    (hc : s'.corridorVehicles = l1 ++ w :: l2) :
    s'.totalWaitTime = exitedWaitSum s' + corridorWaitSum s' := by
  rw [ht, hws]
  unfold corridorWaitSum exitedWaitSum
  rw [hx, hc, hl, cwSumL_append, cwSumL_append, cwSumL_cons, cwSumL_cons,
      if_neg hvne, if_neg hwne, hwe, hwa]

theorem waitSum_exit (s s' : EngineState) (l1 l2 : List Vehicle)
    (v w : Vehicle)
    (hws : s.totalWaitTime = exitedWaitSum s + corridorWaitSum s)
    (hl : s.corridorVehicles = l1 ++ v :: l2)
    (hvne : ¬v.state = .exited) (hwex : w.state = .exited)
    (hwe : w.entryTime = v.entryTime) (hwa : w.arrivalTime = v.arrivalTime)
    (ht : s'.totalWaitTime = s.totalWaitTime)
    (hx : s'.exitedVehicles = s.exitedVehicles ++ [w])
    (hc : s'.corridorVehicles = l1 ++ w :: l2) :
    s'.totalWaitTime = exitedWaitSum s' + corridorWaitSum s' := by
  rw [ht, hws]
  unfold corridorWaitSum exitedWaitSum
  rw [hx, hc, hl, List.map_append, List.sum_append,
      cwSumL_append, cwSumL_append, cwSumL_cons, cwSumL_cons,
      if_neg hvne, if_pos hwex]
  simp [hwe, hwa]
  ring

theorem loop_step_preserve (winnerId? : Option ℕ) (s : EngineState)
    (e : List ℕ) (vid : ℕ) (h : loopInv s e) (hvid : vid ∉ e) :
    loopInv (processCorridorVehicle winnerId? (s, e) vid).1
            (processCorridorVehicle winnerId? (s, e) vid).2 ∧
    ((processCorridorVehicle winnerId? (s, e) vid).2 = e ∨
     (processCorridorVehicle winnerId? (s, e) vid).2 = e ++ [vid]) := by
  unfold processCorridorVehicle
  dsimp only
  split
  · exact ⟨h, Or.inl rfl⟩
  · rename_i v hfind
    have hvmem : v ∈ s.corridorVehicles := List.mem_of_find?_eq_some hfind
    have hveq : v.id = vid := by
      have := List.find?_some hfind
      simpa using this
    subst hveq
    have hvne : ¬v.state = .exited := fun hx =>
      hvid ((h.exitedIff v hvmem).mpr hx)
    have hcnd := corridor_nodup h.nodup
    obtain ⟨l1, l2, hl, hd1, hd2⟩ := mem_decomp_nodup hcnd hvmem
    have hmem1 : ∀ u ∈ l1, u ∈ s.corridorVehicles := by
      intro u hu
      rw [hl]
      exact List.mem_append_left _ hu
    have hmem2 : ∀ u ∈ l2, u ∈ s.corridorVehicles := by
      intro u hu
      rw [hl]
      exact List.mem_append.mpr (Or.inr (List.mem_cons_of_mem _ hu))
    by_cases hpw : v.pos = some (WAITING_POSITIONS v.direction)
    · rw [if_pos hpw]
      by_cases hconf : v.state = .inConflict
      · exact absurd (Option.some.inj (hpw ▸ (h.corPos v hvmem).mp hconf))
          (waiting_ne_intersection v.direction)
      · rw [if_neg hconf]
        by_cases hczs : s.conflictZoneVehicle.isSome = true
        · rw [if_pos hczs]
          exact ⟨loopInv_collisions h, Or.inl rfl⟩
        · rw [if_neg hczs]
          have hczn : s.conflictZoneVehicle = none :=
            Option.not_isSome_iff_eq_none.mp (by simpa using hczs)
          by_cases hwin : winnerId? = some v.id
          · rw [if_pos hwin]
            dsimp only
            have hvcor : v.state = .inCorridor := by
              rcases h.corState v hvmem with h1 | h1 | h1
              · exact h1
              · exact absurd h1 hconf
              · exact absurd h1 hvne
            have hpos1 : ({ v with state := VState.inConflict } :
                Vehicle).pos = some (WAITING_POSITIONS
                  ({ v with state := VState.inConflict } :
                    Vehicle).direction) := hpw
            have hnext1 : ({ v with state := VState.inConflict } :
                Vehicle).nextPosition = some INTERSECTION_POS := by
              rw [nextPosition_some hpos1,
                  if_pos (step_waiting_eq_intersection _).2,
                  (step_waiting_eq_intersection _).1]
            have hmv1 : ({ v with state := VState.inConflict } :
                Vehicle).move = { v with
                  state := VState.inConflict
                  pos := some INTERSECTION_POS
                  distanceRemaining := v.distanceRemaining - 1
                  fuelLevel := v.fuelLevel - 1 } := by
              rcases @move_cases ({ v with state := VState.inConflict })
                  (Or.inr rfl) with ⟨hn, _⟩ | ⟨q, hq, hm⟩
              · rw [hnext1] at hn
                cases hn
              · rw [hnext1] at hq
                obtain rfl := Option.some.inj hq
                rw [hm]
            have hA3id : ({ v with state := VState.inConflict } :
                Vehicle).move.id = v.id := move_id _
            have hA3st : ({ v with state := VState.inConflict } :
                Vehicle).move.state = VState.inConflict := by rw [hmv1]
            have hA3pos : ({ v with state := VState.inConflict } :
                Vehicle).move.pos = some INTERSECTION_POS := by rw [hmv1]
            have hA3e : ({ v with state := VState.inConflict } :
                Vehicle).move.entryTime = v.entryTime := move_entryTime _
            have hA3a : ({ v with state := VState.inConflict } :
                Vehicle).move.arrivalTime = v.arrivalTime :=
              move_arrivalTime _
            have hA3dir : ({ v with state := VState.inConflict } :
                Vehicle).move.direction = v.direction := move_direction _
            have hNE1 : ({ v with state := VState.inConflict } :
                Vehicle).move.hasExited = false := by
              unfold Vehicle.hasExited
              rw [hA3st]
              rfl
            rw [mvs_noexit hNE1]
            dsimp only
            have hrepl1 : replaceById s.corridorVehicles
                ({ v with state := VState.inConflict }) =
                l1 ++ ({ v with state := VState.inConflict } :
                  Vehicle) :: l2 := by
              rw [hl]
              exact replaceById_append l1 l2 v _ rfl hd1 hd2
            have hrepl2 : replaceById
                (l1 ++ ({ v with state := VState.inConflict } :
                  Vehicle) :: l2)
                ({ v with state := VState.inConflict } : Vehicle).move =
                l1 ++ ({ v with state := VState.inConflict } :
                  Vehicle).move :: l2 :=
              replaceById_append l1 l2 _ _ (move_id _) hd1 hd2
            rw [hrepl1, hrepl2]
            refine ⟨⟨?_, h.parkDir, h.barDir, h.parkId, h.barId, ?_, ?_,
              ?_, ?_, ?_, ?_, h.crossed, ?_⟩, Or.inl rfl⟩
            · exact nodup_update h.nodup hl hA3id rfl rfl rfl
            · refine corAll_update l1 l2
                (fun u hu => h.corId u (hmem1 u hu))
                (fun u hu => h.corId u (hmem2 u hu)) _ ?_
              rw [hA3id]
              exact h.corId v hvmem
            · refine corAll_update l1 l2
                (fun u hu => h.corState u (hmem1 u hu))
                (fun u hu => h.corState u (hmem2 u hu)) _ ?_
              exact Or.inr (Or.inl hA3st)
            · refine corAll_update l1 l2
                (fun u hu => h.corRes u (hmem1 u hu))
                (fun u hu => h.corRes u (hmem2 u hu)) _ ?_
              intro _
              rw [hA3dir, hA3id]
              exact h.corRes v hvmem hvne
            · refine corAll_update l1 l2
                (fun u hu => h.corPos u (hmem1 u hu))
                (fun u hu => h.corPos u (hmem2 u hu)) _ ?_
              exact ⟨fun _ => hA3pos, fun _ => hA3st⟩
            · refine corAll_update l1 l2 ?_ ?_ _ ?_
              · intro u hu h'
                exact Option.noConfusion
                  (hczn ▸ h.corZone u (hmem1 u hu) h')
              · intro u hu h'
                exact Option.noConfusion
                  (hczn ▸ h.corZone u (hmem2 u hu) h')
              · intro _
                rw [hA3id]
            · refine corAll_update l1 l2
                (fun u hu => h.exitedIff u (hmem1 u hu))
                (fun u hu => h.exitedIff u (hmem2 u hu)) _ ?_
              constructor
              · intro h'
                rw [hA3id] at h'
                exact absurd h' hvid
              · intro h'
                rw [hA3st] at h'
                exact absurd h' (by decide)
            · exact waitSum_noexit s _ l1 l2 v _ h.waitSum hl hvne
                (by rw [hA3st]; decide) hA3e hA3a rfl rfl rfl
          · rw [if_neg hwin]
            exact ⟨loopInv_collisions h, Or.inl rfl⟩
    · rw [if_neg hpw]
      by_cases hpI : v.pos = some INTERSECTION_POS
      · rw [if_pos hpI]
        dsimp only
        have hvconf : v.state = .inConflict := (h.corPos v hvmem).mpr hpI
        have hnext : v.nextPosition =
            some (stepPos v.direction INTERSECTION_POS) := by
          rw [nextPosition_some hpI, if_pos (step_intersection _).1]
        have hmv : v.move = { v with
            pos := some (stepPos v.direction INTERSECTION_POS)
            distanceRemaining := v.distanceRemaining - 1
            fuelLevel := v.fuelLevel - 1 } := by
          rcases move_cases (Or.inr hvconf) with ⟨hn, _⟩ | ⟨q, hq, hm⟩
          · rw [hnext] at hn
            cases hn
          · rw [hnext] at hq
            obtain rfl := Option.some.inj hq
            exact hm
        have hBms : v.move.state = v.state := by rw [hmv]
        have hNEB : v.move.hasExited = false := by
          unfold Vehicle.hasExited
          rw [hBms, hvconf]
          rfl
        rw [mvs_noexit hNEB]
        dsimp only
        have hreplB1 : replaceById s.corridorVehicles v.move =
            l1 ++ v.move :: l2 := by
          rw [hl]
          exact replaceById_append l1 l2 v _ (move_id v) hd1 hd2
        have hreplB2 : replaceById (l1 ++ v.move :: l2)
            ({ v.move with state := VState.inCorridor }) =
            l1 ++ ({ v.move with state := VState.inCorridor } :
              Vehicle) :: l2 :=
          replaceById_append l1 l2 v.move _ rfl
            (fun x hx => by rw [move_id v]; exact hd1 x hx)
            (fun x hx => by rw [move_id v]; exact hd2 x hx)
        rw [hreplB1, hreplB2]
        have hBid : ({ v.move with state := VState.inCorridor } :
            Vehicle).id = v.id := move_id v
        have hBdir : ({ v.move with state := VState.inCorridor } :
            Vehicle).direction = v.direction := move_direction v
        have hBe : ({ v.move with state := VState.inCorridor } :
            Vehicle).entryTime = v.entryTime := move_entryTime v
        have hBa : ({ v.move with state := VState.inCorridor } :
            Vehicle).arrivalTime = v.arrivalTime := move_arrivalTime v
        have hBpos : ({ v.move with state := VState.inCorridor } :
            Vehicle).pos = some (stepPos v.direction INTERSECTION_POS) := by
          show v.move.pos = _
          rw [hmv]
        refine ⟨⟨?_, h.parkDir, h.barDir, h.parkId, h.barId, ?_, ?_,
          ?_, ?_, ?_, ?_, h.crossed, ?_⟩, Or.inl rfl⟩
        · exact nodup_update h.nodup hl hBid rfl rfl rfl
        · refine corAll_update l1 l2
            (fun u hu => h.corId u (hmem1 u hu))
            (fun u hu => h.corId u (hmem2 u hu)) _ ?_
          rw [hBid]
          exact h.corId v hvmem
        · refine corAll_update l1 l2
            (fun u hu => h.corState u (hmem1 u hu))
            (fun u hu => h.corState u (hmem2 u hu)) _ ?_
          exact Or.inl rfl
        · refine corAll_update l1 l2
            (fun u hu => h.corRes u (hmem1 u hu))
            (fun u hu => h.corRes u (hmem2 u hu)) _ ?_
          intro _
          rw [hBdir, hBid]
          exact h.corRes v hvmem hvne
        · refine corAll_update l1 l2
            (fun u hu => h.corPos u (hmem1 u hu))
            (fun u hu => h.corPos u (hmem2 u hu)) _ ?_
          constructor
          · intro h'
            exact VState.noConfusion h'
          · intro h'
            rw [hBpos] at h'
            exact absurd (Option.some.inj h') (step_intersection _).2
        · refine corAll_update l1 l2 ?_ ?_ _ ?_
          · intro u hu h'
            have h1 := h.corZone u (hmem1 u hu) h'
            have h2 := h.corZone v hvmem hvconf
            rw [h2] at h1
            exact absurd (Option.some.inj h1).symm (hd1 u hu)
          · intro u hu h'
            have h1 := h.corZone u (hmem2 u hu) h'
            have h2 := h.corZone v hvmem hvconf
            rw [h2] at h1
            exact absurd (Option.some.inj h1).symm (hd2 u hu)
          · intro h'
            exact VState.noConfusion h'
        · refine corAll_update l1 l2
            (fun u hu => h.exitedIff u (hmem1 u hu))
            (fun u hu => h.exitedIff u (hmem2 u hu)) _ ?_
          constructor
          · intro h'
            rw [hBid] at h'
            exact absurd h' hvid
          · intro h'
            exact VState.noConfusion h'
        · exact waitSum_noexit s _ l1 l2 v _ h.waitSum hl hvne
            (fun hx => VState.noConfusion hx) hBe hBa rfl rfl rfl
      · rw [if_neg hpI]
        dsimp only
        have hvcor : v.state = .inCorridor := by
          rcases h.corState v hvmem with h1 | h1 | h1
          · exact h1
          · exact absurd ((h.corPos v hvmem).mp h1) hpI
          · exact absurd h1 hvne
        rcases move_cases (Or.inl hvcor) with ⟨_, hmv⟩ | ⟨q, hq, hmv⟩
        · -- the vehicle leaves the grid and exits
          have hEx : v.move.hasExited = true := by
            unfold Vehicle.hasExited
            rw [hmv]
            rfl
          have hv2id : ({ v.move with exitTime := some s.stepCount } :
              Vehicle).id = v.id := move_id v
          have hv2st : ({ v.move with exitTime := some s.stepCount } :
              Vehicle).state = VState.exited := by
            show v.move.state = _
            rw [hmv]
          have hv2e : ({ v.move with exitTime := some s.stepCount } :
              Vehicle).entryTime = v.entryTime := move_entryTime v
          have hv2a : ({ v.move with exitTime := some s.stepCount } :
              Vehicle).arrivalTime = v.arrivalTime := move_arrivalTime v
          have hv2pos : ({ v.move with exitTime := some s.stepCount } :
              Vehicle).pos = none := by
            show v.move.pos = _
            rw [hmv]
          have hrepl : replaceById s.corridorVehicles
              ({ v.move with exitTime := some s.stepCount }) =
              l1 ++ ({ v.move with exitTime := some s.stepCount } :
                Vehicle) :: l2 := by
            rw [hl]
            exact replaceById_append l1 l2 v _ (move_id v) hd1 hd2
          have hcrossed : s.totalCrossed + 1 = (s.exitedVehicles ++
              [({ v.move with exitTime := some s.stepCount } :
                Vehicle)]).length := by
            rw [List.length_append, h.crossed]
            rfl
          have hresP : ∀ u ∈ l1 ++
              ({ v.move with exitTime := some s.stepCount } :
                Vehicle) :: l2, ¬u.state = .exited →
              (if axisOf u.direction = axisOf v.direction then none
               else s.corridorReserved (axisOf u.direction)) = some u.id := by
            have hres1 : ∀ u ∈ l1, ¬u.state = .exited →
                (if axisOf u.direction = axisOf v.direction then none
                 else s.corridorReserved (axisOf u.direction)) =
                some u.id := by
              intro u hu hne'
              have hax : ¬axisOf u.direction = axisOf v.direction := by
                intro heq
                have h1 := h.corRes u (hmem1 u hu) hne'
                have h2 := h.corRes v hvmem hvne
                rw [heq, h2] at h1
                exact hd1 u hu (Option.some.inj h1).symm
              rw [if_neg hax]
              exact h.corRes u (hmem1 u hu) hne'
            have hres2 : ∀ u ∈ l2, ¬u.state = .exited →
                (if axisOf u.direction = axisOf v.direction then none
                 else s.corridorReserved (axisOf u.direction)) =
                some u.id := by
              intro u hu hne'
              have hax : ¬axisOf u.direction = axisOf v.direction := by
                intro heq
                have h1 := h.corRes u (hmem2 u hu) hne'
                have h2 := h.corRes v hvmem hvne
                rw [heq, h2] at h1
                exact hd2 u hu (Option.some.inj h1).symm
              rw [if_neg hax]
              exact h.corRes u (hmem2 u hu) hne'
            exact corAll_update l1 l2 hres1 hres2 _
              (fun hne' => absurd hv2st hne')
          by_cases hczv : s.conflictZoneVehicle = some v.id
          · rw [mvs_exit_cz hEx hczv]
            dsimp only
            rw [hrepl]
            refine ⟨⟨?_, h.parkDir, h.barDir, h.parkId, h.barId, ?_, ?_,
              ?_, ?_, ?_, ?_, hcrossed, ?_⟩, Or.inr rfl⟩
            · exact nodup_update h.nodup hl hv2id rfl rfl rfl
            · refine corAll_update l1 l2
                (fun u hu => h.corId u (hmem1 u hu))
                (fun u hu => h.corId u (hmem2 u hu)) _ ?_
              rw [hv2id]
              exact h.corId v hvmem
            · refine corAll_update l1 l2
                (fun u hu => h.corState u (hmem1 u hu))
                (fun u hu => h.corState u (hmem2 u hu)) _ ?_
              exact Or.inr (Or.inr hv2st)
            · exact hresP
            · refine corAll_update l1 l2
                (fun u hu => h.corPos u (hmem1 u hu))
                (fun u hu => h.corPos u (hmem2 u hu)) _ ?_
              constructor
              · intro h'
                rw [hv2st] at h'
                exact absurd h' (by decide)
              · intro h'
                rw [hv2pos] at h'
                exact absurd h' (by decide)
            · refine corAll_update l1 l2 ?_ ?_ _ ?_
              · intro u hu h'
                have h1 := h.corZone u (hmem1 u hu) h'
                rw [hczv] at h1
                exact absurd (Option.some.inj h1).symm (hd1 u hu)
              · intro u hu h'
                have h1 := h.corZone u (hmem2 u hu) h'
                rw [hczv] at h1
                exact absurd (Option.some.inj h1).symm (hd2 u hu)
              · intro h'
                rw [hv2st] at h'
                exact absurd h' (by decide)
            · refine corAll_update l1 l2 ?_ ?_ _ ?_
              · intro u hu
                constructor
                · intro h'
                  rcases List.mem_append.mp h' with h'' | h''
                  · exact (h.exitedIff u (hmem1 u hu)).mp h''
                  · exact absurd (List.mem_singleton.mp h'') (hd1 u hu)
                · intro h'
                  exact List.mem_append_left _
                    ((h.exitedIff u (hmem1 u hu)).mpr h')
              · intro u hu
                constructor
                · intro h'
                  rcases List.mem_append.mp h' with h'' | h''
                  · exact (h.exitedIff u (hmem2 u hu)).mp h''
                  · exact absurd (List.mem_singleton.mp h'') (hd2 u hu)
                · intro h'
                  exact List.mem_append_left _
                    ((h.exitedIff u (hmem2 u hu)).mpr h')
              · constructor
                · intro _
                  exact hv2st
                · intro _
                  rw [hv2id]
                  exact List.mem_append_right _ (List.mem_singleton.mpr rfl)
            · exact waitSum_exit s _ l1 l2 v _ h.waitSum hl hvne hv2st
                hv2e hv2a rfl rfl rfl
          · rw [mvs_exit_nocz hEx hczv]
            dsimp only
            rw [hrepl]
            refine ⟨⟨?_, h.parkDir, h.barDir, h.parkId, h.barId, ?_, ?_,
              ?_, ?_, ?_, ?_, hcrossed, ?_⟩, Or.inr rfl⟩
            · exact nodup_update h.nodup hl hv2id rfl rfl rfl
            · refine corAll_update l1 l2
                (fun u hu => h.corId u (hmem1 u hu))
                (fun u hu => h.corId u (hmem2 u hu)) _ ?_
              rw [hv2id]
              exact h.corId v hvmem
            · refine corAll_update l1 l2
                (fun u hu => h.corState u (hmem1 u hu))
                (fun u hu => h.corState u (hmem2 u hu)) _ ?_
              exact Or.inr (Or.inr hv2st)
            · exact hresP
            · refine corAll_update l1 l2
                (fun u hu => h.corPos u (hmem1 u hu))
                (fun u hu => h.corPos u (hmem2 u hu)) _ ?_
              constructor
              · intro h'
                rw [hv2st] at h'
                exact absurd h' (by decide)
              · intro h'
                rw [hv2pos] at h'
                exact absurd h' (by decide)
            · refine corAll_update l1 l2
                (fun u hu => h.corZone u (hmem1 u hu))
                (fun u hu => h.corZone u (hmem2 u hu)) _ ?_
              intro h'
              rw [hv2st] at h'
              exact absurd h' (by decide)
            · refine corAll_update l1 l2 ?_ ?_ _ ?_
              · intro u hu
                constructor
                · intro h'
                  rcases List.mem_append.mp h' with h'' | h''
                  · exact (h.exitedIff u (hmem1 u hu)).mp h''
                  · exact absurd (List.mem_singleton.mp h'') (hd1 u hu)
                · intro h'
                  exact List.mem_append_left _
                    ((h.exitedIff u (hmem1 u hu)).mpr h')
              · intro u hu
                constructor
                · intro h'
                  rcases List.mem_append.mp h' with h'' | h''
                  · exact (h.exitedIff u (hmem2 u hu)).mp h''
                  · exact absurd (List.mem_singleton.mp h'') (hd2 u hu)
                · intro h'
                  exact List.mem_append_left _
                    ((h.exitedIff u (hmem2 u hu)).mpr h')
              · constructor
                · intro _
                  exact hv2st
                · intro _
                  rw [hv2id]
                  exact List.mem_append_right _ (List.mem_singleton.mpr rfl)
            · exact waitSum_exit s _ l1 l2 v _ h.waitSum hl hvne hv2st
                hv2e hv2a rfl rfl rfl
        · -- ordinary in-corridor advance
          have hYst : v.move.state = VState.inCorridor := by
            rw [hmv]
            exact hvcor
          have hNE : v.move.hasExited = false := by
            unfold Vehicle.hasExited
            rw [hYst]
            rfl
          have hYpos : v.move.pos = some q := by rw [hmv]
          have hqI : ¬q = INTERSECTION_POS := by
            rcases nextPosition_eq_some hq with ⟨_, rfl⟩ | ⟨p, hp, rfl, _⟩
            · exact entry_ne_intersection _
            · intro hqi
              apply hpw
              rw [hp, step_eq_intersection hqi]
          rw [mvs_noexit hNE]
          dsimp only
          have hreplY : replaceById s.corridorVehicles v.move =
              l1 ++ v.move :: l2 := by
            rw [hl]
            exact replaceById_append l1 l2 v _ (move_id v) hd1 hd2
          rw [hreplY]
          refine ⟨⟨?_, h.parkDir, h.barDir, h.parkId, h.barId, ?_, ?_,
            ?_, ?_, ?_, ?_, h.crossed, ?_⟩, Or.inl rfl⟩
          · exact nodup_update h.nodup hl (move_id v) rfl rfl rfl
          · refine corAll_update l1 l2
              (fun u hu => h.corId u (hmem1 u hu))
              (fun u hu => h.corId u (hmem2 u hu)) _ ?_
            rw [move_id v]
            exact h.corId v hvmem
          · refine corAll_update l1 l2
              (fun u hu => h.corState u (hmem1 u hu))
              (fun u hu => h.corState u (hmem2 u hu)) _ ?_
            exact Or.inl hYst
          · refine corAll_update l1 l2
              (fun u hu => h.corRes u (hmem1 u hu))
              (fun u hu => h.corRes u (hmem2 u hu)) _ ?_
            intro _
            rw [move_direction v, move_id v]
            exact h.corRes v hvmem hvne
          · refine corAll_update l1 l2
              (fun u hu => h.corPos u (hmem1 u hu))
              (fun u hu => h.corPos u (hmem2 u hu)) _ ?_
            constructor
            · intro h'
              rw [hYst] at h'
              exact absurd h' (by decide)
            · intro h'
              rw [hYpos] at h'
              exact absurd (Option.some.inj h') hqI
          · refine corAll_update l1 l2
              (fun u hu => h.corZone u (hmem1 u hu))
              (fun u hu => h.corZone u (hmem2 u hu)) _ ?_
            intro h'
            rw [hYst] at h'
            exact absurd h' (by decide)
          · refine corAll_update l1 l2
              (fun u hu => h.exitedIff u (hmem1 u hu))
              (fun u hu => h.exitedIff u (hmem2 u hu)) _ ?_
            constructor
            · intro h'
              rw [move_id v] at h'
              exact absurd h' hvid
            · intro h'
              rw [hYst] at h'
              exact absurd h' (by decide)
          · exact waitSum_noexit s _ l1 l2 v _ h.waitSum hl hvne
              (by rw [hYst]; decide) (move_entryTime v)
              (move_arrivalTime v) rfl rfl rfl

theorem loop_foldl_preserve (winnerId? : Option ℕ) :
    ∀ (ids : List ℕ) (s : EngineState) (e : List ℕ), loopInv s e →
      (∀ i ∈ ids, i ∉ e) → ids.Nodup →
      loopInv (ids.foldl (processCorridorVehicle winnerId?) (s, e)).1
              (ids.foldl (processCorridorVehicle winnerId?) (s, e)).2 := by
  intro ids
  induction ids with
  | nil => exact fun s e h _ _ => h
  | cons i ids ih =>
    intro s e h hdisj hnd
    rw [List.foldl_cons]
    obtain ⟨h1, h2⟩ := loop_step_preserve winnerId? s e i h
      (hdisj i (List.mem_cons_self i ids))
    have hdisj' : ∀ j ∈ ids,
        j ∉ (processCorridorVehicle winnerId? (s, e) i).2 := by
      intro j hj
      rcases h2 with he | he
      · rw [he]
        exact hdisj j (List.mem_cons_of_mem i hj)
      · rw [he]
        intro hmem
        rcases List.mem_append.mp hmem with hm | hm
        · exact hdisj j (List.mem_cons_of_mem i hj) hm
        · rw [List.mem_singleton] at hm
          exact (List.nodup_cons.mp hnd).1 (hm ▸ hj)
    exact ih _ _ h1 hdisj' (List.nodup_cons.mp hnd).2

theorem engineInv_to_loopInv {s : EngineState} (h : engineInv s) :
    loopInv s [] :=
  ⟨h.nodup, h.parkDir, h.barDir, h.parkId, h.barId, h.corId,
   fun v hv => (h.corState v hv).elim Or.inl (fun hx => Or.inr (Or.inl hx)),
   fun v hv _ => h.corRes v hv, h.corPos, h.corZone,
   fun v hv => ⟨fun hx => absurd hx (List.not_mem_nil _), fun hx => by
     rcases h.corState v hv with h1 | h1 <;> rw [hx] at h1 <;>
       exact VState.noConfusion h1⟩,
   h.crossed, h.waitSum⟩

theorem loopInv_cleanup {s : EngineState} {e : List ℕ} (h : loopInv s e) :
    engineInv { s with corridorVehicles :=
      s.corridorVehicles.filter (fun v => decide (v.id ∉ e)) } := by
  have hactive : ∀ v ∈ s.corridorVehicles.filter
      (fun v => decide (v.id ∉ e)), v ∈ s.corridorVehicles ∧ v.id ∉ e := by
    intro v hv
    have hv' := List.mem_filter.mp hv
    exact ⟨hv'.1, of_decide_eq_true hv'.2⟩
  have hnexit : ∀ v ∈ s.corridorVehicles.filter
      (fun v => decide (v.id ∉ e)), ¬v.state = .exited := by
    intro v hv hst
    exact (hactive v hv).2 ((h.exitedIff v (hactive v hv).1).mpr hst)
  refine ⟨?_, h.parkDir, h.barDir, h.parkId, h.barId, ?_, ?_, ?_, ?_, ?_,
    h.crossed, ?_⟩
  · rw [Multiset.nodup_iff_count_le_one]
    intro i
    have h1 := nodup_count h.nodup i
    rw [count_decomp] at h1 ⊢
    dsimp only
    have hsub : ((s.corridorVehicles.filter
        (fun v => decide (v.id ∉ e))).map Vehicle.id).count i ≤
        (s.corridorVehicles.map Vehicle.id).count i :=
      ((List.filter_sublist _).map _).count_le i
    omega
  · exact fun v hv => h.corId v (hactive v hv).1
  · intro v hv
    rcases h.corState v (hactive v hv).1 with h1 | h1 | h1
    · exact Or.inl h1
    · exact Or.inr h1
    · exact absurd h1 (hnexit v hv)
  · exact fun v hv => h.corRes v (hactive v hv).1 (hnexit v hv)
  · exact fun v hv => h.corPos v (hactive v hv).1
  · exact fun v hv => h.corZone v (hactive v hv).1
  · have hflt : cwSumL (s.corridorVehicles.filter
        (fun v => decide (v.id ∉ e))) = cwSumL s.corridorVehicles := by
      unfold cwSumL
      rw [List.filter_filter]
      have hpt : ∀ a ∈ s.corridorVehicles,
          (decide (¬a.state = VState.exited) && decide (a.id ∉ e)) =
          decide (¬a.state = VState.exited) := by
        intro a ha
        by_cases hst : a.state = VState.exited
        · simp [hst]
        · have hid : a.id ∉ e := fun hm => hst ((h.exitedIff a ha).mp hm)
          simp [hst, hid]
      rw [List.filter_congr hpt]
    show s.totalWaitTime = exitedWaitSum s + cwSumL _
    rw [hflt]
    exact h.waitSum

theorem inv_moveCorridorVehicles (pol : Policy) (s : EngineState) (g : Rng)
    (h : engineInv s) : engineInv (moveCorridorVehicles pol s g).1 := by
  unfold moveCorridorVehicles
  dsimp only
  exact loopInv_cleanup (loop_foldl_preserve _ _ s []
    (engineInv_to_loopInv h) (by simp) (corridor_nodup h.nodup))

theorem inv_stepCount (s : EngineState) (h : engineInv s) :
    engineInv { s with stepCount := s.stepCount + 1 } :=
  ⟨h.nodup, h.parkDir, h.barDir, h.parkId, h.barId, h.corId, h.corState,
   h.corRes, h.corPos, h.corZone, h.crossed, h.waitSum⟩

theorem inv_engineStep (pol : Policy) (cfg : Config)
    (sg : EngineState × Rng) (h : engineInv sg.1) :
    engineInv (engineStep pol cfg sg).1 := by
  unfold engineStep
  dsimp only
  exact inv_moveCorridorVehicles pol _ _
    (inv_processBarrier pol .EW _ _
      (inv_processBarrier pol .NS _ _
        (inv_moveParkingToBarrier pol _
          (inv_trySpawnVehicles pol cfg _ _
            (inv_stepCount sg.1 h)))))

theorem inv_engineRun (pol : Policy) (cfg : Config) :
    ∀ (n : ℕ) (sg : EngineState × Rng), engineInv sg.1 →
      engineInv (engineRun pol cfg sg n).1 := by
  intro n
  induction n with
  | zero => exact fun sg h => h
  | succ n ih => exact fun sg h => ih _ (inv_engineStep pol cfg sg h)

theorem engineInv_init : engineInv initState := by
  refine ⟨?_, ?_, ?_, ?_, ?_, ?_, ?_, ?_, ?_, ?_, rfl, rfl⟩ <;>
    simp [activeIdMS, activeVehicles, initState]

theorem engineInv_run (pol : Policy) (cfg : Config) (seed : Option ℤ)
    (g : Rng) (n : ℕ) :
    engineInv (engineRun pol cfg (engineNew seed g) n).1 :=
  inv_engineRun pol cfg n _ engineInv_init

theorem corridor_unique {s : EngineState} (h : engineInv s) {v w : Vehicle}
    (hv : v ∈ s.corridorVehicles) (hw : w ∈ s.corridorVehicles)
    (hid : v.id = w.id) : v = w :=
  List.inj_on_of_nodup_map (corridor_nodup h.nodup) hv hw hid

/-- C1: in every reachable state of every run, under any policy, two
corridor vehicles that are both in the conflict cell are the same vehicle,
and two corridor vehicles on the same axis are the same vehicle — the
conflict-cell lock and each axis lock never cover two agents. -/
theorem conflict_and_corridor_exclusive (pol : Policy) (cfg : Config)
    (seed : Option ℤ) (g : Rng) (n : ℕ) (v w : Vehicle)
    (hv : v ∈ (engineRun pol cfg (engineNew seed g) n).1.corridorVehicles)
    (hw : w ∈ (engineRun pol cfg (engineNew seed g) n).1.corridorVehicles) :
    (v.state = .inConflict → w.state = .inConflict → v = w) ∧
    (axisOf v.direction = axisOf w.direction → v = w) := by
  have hI := engineInv_run pol cfg seed g n
  constructor
  · intro hvc hwc
    have h1 := hI.corZone v hv hvc
    have h2 := hI.corZone w hw hwc
    rw [h1] at h2
    exact corridor_unique hI hv hw (Option.some.inj h2)
  · intro hax
    have h1 := hI.corRes v hv
    have h2 := hI.corRes w hw
    rw [hax, h2] at h1
    exact corridor_unique hI hv hw (Option.some.inj h1).symm

/-- The deterministic random stream of the demonstration runs: draw 0 and
draw 17 fall below the 1/2 spawn rate, every other draw does not. -/
def c7Rng : Rng := ⟨fun n => if n = 0 ∨ n = 17 then 0 else 1/2, 0⟩

/-- FCFS demonstration configuration: spawn rate 1/2. -/
def c7Cfg : Config := ⟨1/2, 0⟩

/-- The vehicle sitting in the corridor after 8 steps of the
demonstration run. -/
def c1V : Vehicle :=
  ((engineRun fcfsPolicy c7Cfg (engineNew none
      c7Rng) 8).1.corridorVehicles).getD 0
    (demoVehicle 0 .N .FCFS 0 none none 0 50)

set_option maxRecDepth 1000000 in
/-- C1 witness: the demonstration run reaches a state with a corridor
vehicle, and the safety theorem applies to it. -/
theorem conflict_and_corridor_exclusive_witness :
    c1V ∈ (engineRun fcfsPolicy c7Cfg (engineNew none
        c7Rng) 8).1.corridorVehicles ∧
    axisOf c1V.direction = axisOf c1V.direction ∧ c1V = c1V := by
  have hm : c1V ∈ (engineRun fcfsPolicy c7Cfg (engineNew none
      c7Rng) 8).1.corridorVehicles := by with_unfolding_all decide
  exact ⟨hm, rfl, (conflict_and_corridor_exclusive fcfsPolicy c7Cfg none
    c7Rng 8 c1V c1V hm hm).2 rfl⟩

/-- C7 (amended): `total_crossed` always equals the length of the exited
record, but `avg_wait_time` averages `total_wait_time`, which holds the
admission wait `entry_time − arrival_time` of every vehicle *admitted to
the corridor* — the still-in-corridor vehicles included — not only of the
exited ones. -/
theorem stats_round_trip_consistency (pol : Policy) (cfg : Config)
    (seed : Option ℤ) (g : Rng) (n : ℕ) :
    (getStats (engineRun pol cfg (engineNew seed g) n).1).totalCrossed =
      (engineRun pol cfg (engineNew seed g) n).1.exitedVehicles.length ∧
    (0 < (engineRun pol cfg (engineNew seed g) n).1.totalCrossed →
      (getStats (engineRun pol cfg (engineNew seed g) n).1).avgWaitTime =
        ((exitedWaitSum (engineRun pol cfg (engineNew seed g) n).1 +
          corridorWaitSum (engineRun pol cfg (engineNew seed g) n).1 :
            ℤ) : ℚ) /
        ((engineRun pol cfg (engineNew seed g) n).1.totalCrossed : ℚ)) := by
  have hI := engineInv_run pol cfg seed g n
  refine ⟨hI.crossed, fun hpos => ?_⟩
  show (if 0 < (engineRun pol cfg (engineNew seed g) n).1.totalCrossed
      then ((engineRun pol cfg (engineNew seed g) n).1.totalWaitTime : ℚ) /
        ((engineRun pol cfg (engineNew seed g) n).1.totalCrossed : ℚ)
      else 0) = _
  rw [if_pos hpos, hI.waitSum]

set_option maxRecDepth 1000000 in
/-- C7 witness: after 12 steps of the demonstration run one vehicle has
crossed, and the amended statistic equation holds there. -/
theorem stats_round_trip_consistency_witness :
    0 < (engineRun fcfsPolicy c7Cfg (engineNew none
        c7Rng) 12).1.totalCrossed ∧
    (getStats (engineRun fcfsPolicy c7Cfg (engineNew none
        c7Rng) 12).1).avgWaitTime =
      ((exitedWaitSum (engineRun fcfsPolicy c7Cfg (engineNew none
          c7Rng) 12).1 +
        corridorWaitSum (engineRun fcfsPolicy c7Cfg (engineNew none
          c7Rng) 12).1 : ℤ) : ℚ) /
      ((engineRun fcfsPolicy c7Cfg (engineNew none
          c7Rng) 12).1.totalCrossed : ℚ) :=
  ⟨by with_unfolding_all decide,
   (stats_round_trip_consistency fcfsPolicy c7Cfg none c7Rng 12).2
     (by with_unfolding_all decide)⟩

set_option maxRecDepth 1000000 in
/-- C7 counterexample: after 12 steps of the demonstration run, exactly
one vehicle has crossed and its recorded wait is `0`, so the spec's
quotient `sum(wait over exited)/total_crossed` is `0` — yet
`avg_wait_time` reports `7`, the admission wait of the vehicle still in
the corridor. -/
theorem stats_round_trip_counterexample :
    (engineRun fcfsPolicy c7Cfg (engineNew none
        c7Rng) 12).1.totalCrossed = 1 ∧
    exitedWaitSum (engineRun fcfsPolicy c7Cfg (engineNew none
        c7Rng) 12).1 = 0 ∧
    (getStats (engineRun fcfsPolicy c7Cfg (engineNew none
        c7Rng) 12).1).avgWaitTime = 7 := by
  with_unfolding_all decide

/-- C8 (amended): a *nonzero* seed alone determines the whole trajectory:
two engines built with the same parameters and the same nonzero seed agree
after any number of steps, whatever generator state the process had
before. -/
theorem seeded_run_deterministic (pol : Policy) (cfg : Config) (sd : ℤ)
    (hsd : sd ≠ 0) (g1 g2 : Rng) (n : ℕ) :
    engineRun pol cfg (engineNew (some sd) g1) n =
    engineRun pol cfg (engineNew (some sd) g2) n := by
  unfold engineNew
  dsimp only
  rw [if_pos hsd, if_pos hsd]

/-- C8 witness: seed `42` reproduces the trajectory from two different
ambient generator states. -/
theorem seeded_run_deterministic_witness :
    (42 : ℤ) ≠ 0 ∧
    engineRun fcfsPolicy c7Cfg (engineNew (some 42) c7Rng) 3 =
    engineRun fcfsPolicy c7Cfg (engineNew (some 42)
      ⟨fun _ => 0, 0⟩) 3 :=
  ⟨by decide,
   seeded_run_deterministic fcfsPolicy c7Cfg 42 (by decide) c7Rng
     ⟨fun _ => 0, 0⟩ 3⟩

set_option maxRecDepth 1000000 in
/-- C8 counterexample: seed `0` is falsy in `if seed:`, so the generator
is never seeded and the trajectory still depends on the ambient generator
state — two engines built with the same parameters and the same seed `0`
diverge already in `total_spawned` after one step. -/
theorem seeded_run_counterexample :
    seedTruthy (some 0) = false ∧
    (engineRun fcfsPolicy c7Cfg (engineNew (some 0)
        ⟨fun _ => 0, 0⟩) 1).1.totalSpawned = 4 ∧
    (engineRun fcfsPolicy c7Cfg (engineNew (some 0)
        ⟨fun _ => 1/2, 0⟩) 1).1.totalSpawned = 0 := by
  with_unfolding_all decide

end MAS

